import Mathlib

/-!
Shallow embedding of the recipe-management API (Django / DRF project under
`app/`): user accounts (`core/models.py`), recipes with tags and ingredients
(`core/models.py`, `recipe/serializers.py`), and the CRUD / filtering /
image-upload endpoints (`recipe/views.py`).

Database state is an explicit `Db` record of row lists; ORM calls become
functions threading that state.  Python exceptions are an explicit
`PyExc` sum type; views return result-plus-state pairs.
-/

namespace RecipeApp

/-! ### Python-level string primitives -/

/-- Python exceptions relevant to this code base: `ValueError` (raised by
`int()` on malformed literals and by `UserManager.create_user` on empty
email), the web framework's `ValidationError`, and the database driver's
`IntegrityError` (raised by `save()` when a unique constraint fails). -/
inductive PyExc where
  | valueError (msg : String)
  | validationError (msg : String)
  | integrityError (msg : String)
  deriving Repr, DecidableEq

/-- Python truthiness of a string: the empty string is falsy. -/
def strEmpty (s : String) : Bool :=
  s.toList.isEmpty

/-- Characters stripped by Python's `str.strip()` (ASCII whitespace). -/
def isPySpace (c : Char) : Bool :=
  c = ' ' || c = '\t' || c = '\n' || c = '\x0d' || c = '\x0b' || c = '\x0c'

/-- ASCII decimal digit test, as used by `int()` parsing. -/
def isAsciiDigit (c : Char) : Bool :=
  '0' ≤ c && c ≤ '9'

/-- Continuation of a Python integer literal after its first digit:
digits with single underscores allowed between digits (PEP 515). -/
def pyDigitsRest : List Char → Option (List Char)
  | [] => some []
  | '_' :: c :: rest =>
    if isAsciiDigit c then (pyDigitsRest rest).map (c :: ·) else none
  | c :: rest =>
    if isAsciiDigit c then (pyDigitsRest rest).map (c :: ·) else none

/-- A full Python integer-literal digit sequence (non-empty, underscore
separators allowed between digits); returns the digits. -/
def pyDigits : List Char → Option (List Char)
  | [] => none
  | c :: rest =>
    if isAsciiDigit c then (pyDigitsRest rest).map (c :: ·) else none

/-- Numeric value of a digit list. -/
def digitsToNat (ds : List Char) : Nat :=
  ds.foldl (fun a c => a * 10 + (c.toNat - '0'.toNat)) 0

/-- Strip leading and trailing Python whitespace. -/
def pyStrip (cs : List Char) : List Char :=
  ((cs.dropWhile isPySpace).reverse.dropWhile isPySpace).reverse

/-- Python's `int(s)` on a string: optional surrounding whitespace, an
optional sign, then a digit sequence; anything else raises `ValueError`. -/
def pyInt (cs : List Char) : Except PyExc Int :=
  let stripped := pyStrip cs
  let signBody : Int × List Char :=
    match stripped with
    | '+' :: r => (1, r)
    | '-' :: r => (-1, r)
    | r => (1, r)
  match pyDigits signBody.2 with
  | some ds => .ok (signBody.1 * (digitsToNat ds : Int))
  | none =>
    .error (.valueError ("invalid literal for int() with base 10: " ++ String.mk cs))

/-- Python's `s.split(',')`: the empty string yields `[""]`, and every
comma opens a new (possibly empty) token. -/
def splitOnComma : List Char → List (List Char)
  | [] => [[]]
  | c :: rest =>
    let r := splitOnComma rest
    if c = ',' then [] :: r
    else
      match r with
      | h :: t => (c :: h) :: t
      | [] => [[c]]

/-- Split a character list at its last occurrence of `sep`: returns the
part before and the part after, or `none` when `sep` is absent. -/
def splitAtLastChar (sep : Char) : List Char → Option (List Char × List Char)
  | [] => none
  | c :: rest =>
    match splitAtLastChar sep rest with
    | some (l, d) => some (c :: l, d)
    | none => if c = sep then some ([], rest) else none

/-- Lexicographic comparison of character lists by code point, modelling
the database's text collation used by `order_by('-name')`. -/
def listLe : List Char → List Char → Bool
  | [], _ => true
  | _ :: _, [] => false
  | a :: as, b :: bs =>
    if a.toNat < b.toNat then true
    else if b.toNat < a.toNat then false
    else listLe as bs

/-! ### Data model (`app/core/models.py`) -/

/-- A stored account row of the custom `User` model: the password is kept
only as a hash (`set_password`). -/
structure User where
  id : Nat
  email : String
  passwordHash : String
  deriving Repr, DecidableEq

/-- A `Tag` row: owned by one user, carries a name; no uniqueness
constraint is declared on `(user, name)`. -/
structure Tag where
  id : Nat
  user : Nat
  name : String
  deriving Repr, DecidableEq

/-- An `Ingredient` row: same shape as `Tag`. -/
structure Ingredient where
  id : Nat
  user : Nat
  name : String
  deriving Repr, DecidableEq

/-- A `Recipe` row.  The many-to-many relations to `Tag` and `Ingredient`
are the lists of related row ids; `price` (a 2-place decimal) is carried
as a scaled integer, which is lossless for the claims at hand. -/
structure Recipe where
  id : Nat
  user : Nat
  title : String
  description : String
  time_minutes : Int
  price : Int
  link : String
  tags : List Nat
  ingredients : List Nat
  image : Option String
  deriving Repr, DecidableEq

/-- The database: one list per table plus auto-increment counters for the
primary keys. -/
structure Db where
  users : List User
  recipes : List Recipe
  tags : List Tag
  ingredients : List Ingredient
  nextUserId : Nat
  nextRecipeId : Nat
  nextTagId : Nat
  nextIngredientId : Nat
  deriving Repr, DecidableEq

/-- The empty database. -/
def emptyDb : Db :=
  { users := [], recipes := [], tags := [], ingredients := []
    nextUserId := 1, nextRecipeId := 1, nextTagId := 1, nextIngredientId := 1 }

/-- Primary keys are unique and assigned in increasing insertion order —
the auto-increment invariant every reachable database satisfies. -/
def WellFormedDb (db : Db) : Prop :=
  db.recipes.Pairwise (fun a b => a.id < b.id) ∧
  db.tags.Pairwise (fun a b => a.id < b.id) ∧
  db.ingredients.Pairwise (fun a b => a.id < b.id)

instance (db : Db) : Decidable (WellFormedDb db) := by
  unfold WellFormedDb; infer_instance

/-! ### User store (`UserManager` in `app/core/models.py`) -/

/-- Modelled from the spec: the framework's salted password hashing
(`set_password`) lives outside this repository; only the fact that a hash,
never the raw password, is stored matters here. -/
def hashPassword (password : String) : String :=
  "pbkdf2:" ++ password

/-- Modelled from the spec: `normalize_email` (a framework helper invoked
by `UserManager.create_user`, not part of this repository) lowercases the
domain portion of the address — the part after the last `@` — and leaves
the local part as given; an address with no `@` is returned unchanged. -/
def normalize_email (email : String) : String :=
  match splitAtLastChar '@' email.toList with
  | none => email
  | some (l, d) => String.mk (l ++ '@' :: d.map Char.toLower)

/-- Embedding of `UserManager.create_user`: an empty (falsy) email raises
`ValueError` and nothing is saved; otherwise `user.save()` inserts the
row with the normalized email and the hashed password — the `email`
column is declared `unique=True`, so the insert raises `IntegrityError`
when the normalized email is already stored, and nothing changes. -/
def create_user (db : Db) (email : String) (password : String) :
    Except PyExc User × Db :=
  if strEmpty email then
    (.error (.valueError "Users must have an email address"), db)
  else
    let u : User :=
      { id := db.nextUserId, email := normalize_email email
        passwordHash := hashPassword password }
    if db.users.any (fun x => x.email == u.email) then
      (.error (.integrityError "UNIQUE constraint failed: core_user.email"), db)
    else
      (.ok u, { db with users := db.users ++ [u], nextUserId := db.nextUserId + 1 })

/-- Whether a `create_user` outcome is a framework `ValidationError`. -/
def isValidationErr (r : Except PyExc User) : Bool :=
  match r with
  | .error (.validationError _) => true
  | _ => false

/-! ### Recipe serializer (`app/recipe/serializers.py`) -/

/-- A nested tag object of a recipe payload (`TagSerializer`: just a name,
`id` is read-only). -/
structure TagPayload where
  name : String
  deriving Repr, DecidableEq

/-- A nested ingredient object of a recipe payload. -/
structure IngredientPayload where
  name : String
  deriving Repr, DecidableEq

/-- The writable fields of `RecipeDetailSerializer` for a create request. -/
structure RecipePayload where
  title : String
  description : String
  time_minutes : Int
  price : Int
  link : String
  tags : List TagPayload
  ingredients : List IngredientPayload
  deriving Repr, DecidableEq

/-- Embedding of `Tag.objects.get_or_create(user=auth_user, name=name)`:
return the first stored tag matching owner and exact name, or append a
fresh row. -/
def tag_get_or_create (db : Db) (u : Nat) (n : String) : Tag × Db :=
  match db.tags.find? (fun t => t.user == u && t.name == n) with
  | some t => (t, db)
  | none =>
    let t : Tag := ⟨db.nextTagId, u, n⟩
    (t, { db with tags := db.tags ++ [t], nextTagId := db.nextTagId + 1 })

/-- Embedding of `Ingredient.objects.get_or_create(user=auth_user, name=name)`. -/
def ingredient_get_or_create (db : Db) (u : Nat) (n : String) : Ingredient × Db :=
  match db.ingredients.find? (fun t => t.user == u && t.name == n) with
  | some t => (t, db)
  | none =>
    let t : Ingredient := ⟨db.nextIngredientId, u, n⟩
    (t, { db with
          ingredients := db.ingredients ++ [t]
          nextIngredientId := db.nextIngredientId + 1 })

/-- Embedding of `recipe.tags.add(tag_obj)`: attach the tag id to the
recipe's many-to-many list; the M2M `add` is a no-op when the link already
exists. -/
def addTagToRecipe (db : Db) (rid tid : Nat) : Db :=
  { db with recipes := db.recipes.map fun r =>
      if r.id == rid then
        if r.tags.contains tid then r else { r with tags := r.tags ++ [tid] }
      else r }

/-- Embedding of `recipe.ingredients.add(ingredient_obj)`. -/
def addIngredientToRecipe (db : Db) (rid iid : Nat) : Db :=
  { db with recipes := db.recipes.map fun r =>
      if r.id == rid then
        if r.ingredients.contains iid then r
        else { r with ingredients := r.ingredients ++ [iid] }
      else r }

/-- Embedding of `RecipeSerializer._create_or_update_tags` (the same loop
is inlined in `RecipeSerializer.create`): for each payload name,
get-or-create the tag for the authenticated user and attach it. -/
def create_or_update_tags (db : Db) (u rid : Nat) (ts : List TagPayload) : Db :=
  match ts with
  | [] => db
  | tp :: rest =>
    let p := tag_get_or_create db u tp.name
    create_or_update_tags (addTagToRecipe p.2 rid p.1.id) u rid rest

/-- Embedding of `RecipeSerializer._get_or_create_ingredients`. -/
def get_or_create_ingredients (db : Db) (u rid : Nat)
    (ips : List IngredientPayload) : Db :=
  match ips with
  | [] => db
  | ip :: rest =>
    let p := ingredient_get_or_create db u ip.name
    get_or_create_ingredients (addIngredientToRecipe p.2 rid p.1.id) u rid rest

/-- Embedding of `RecipeSerializer.create`: insert the recipe row, then
resolve and attach each nested tag and ingredient; returns the new id. -/
def serializer_create (db : Db) (u : Nat) (p : RecipePayload) : Nat × Db :=
  let rid := db.nextRecipeId
  let r : Recipe :=
    { id := rid, user := u, title := p.title, description := p.description
      time_minutes := p.time_minutes, price := p.price, link := p.link
      tags := [], ingredients := [], image := none }
  let db1 := { db with recipes := db.recipes ++ [r], nextRecipeId := rid + 1 }
  let db2 := create_or_update_tags db1 u rid p.tags
  (rid, get_or_create_ingredients db2 u rid p.ingredients)

/-- Field-level validation the framework serializer performs before any
save: `title` and every nested tag / ingredient `name` are required
character fields that reject the empty string (`allow_blank` defaults to
false), as the repository's own tests exercise. -/
def recipePayloadValid (p : RecipePayload) : Bool :=
  !strEmpty p.title &&
  p.tags.all (fun t => !strEmpty t.name) &&
  p.ingredients.all (fun i => !strEmpty i.name)

/-- Outcome of `POST /recipes`. -/
inductive CreateResult where
  | created (rid : Nat)
  | badRequest
  deriving Repr, DecidableEq

/-- The `POST /recipes` pipeline: the serializer validates the payload
first; only a valid payload reaches `perform_create` /
`serializer.save(user=request.user)`, so an invalid one leaves the
database untouched (400, nothing persisted). -/
def create_recipe_request (db : Db) (u : Nat) (p : RecipePayload) :
    CreateResult × Db :=
  if recipePayloadValid p then
    let r := serializer_create db u p
    (.created r.1, r.2)
  else (.badRequest, db)

/-! ### Recipe queryset and endpoints (`app/recipe/views.py`) -/

/-- Truthiness of `request.query_params.get(...)`: absent (`None`) and the
empty string are both falsy. -/
def truthyParam : Option String → Bool
  | none => false
  | some s => !strEmpty s

/-- Embedding of `RecipeViewSet._params_to_ints`:
`[int(str_id) for str_id in qs.split(',')]`, left to right, propagating
the first `ValueError`. -/
def params_to_ints (qs : String) : Except PyExc (List Int) :=
  go (splitOnComma qs.toList)
where
  /-- the list comprehension's traversal -/
  go : List (List Char) → Except PyExc (List Int)
    | [] => .ok []
    | tok :: rest =>
      match pyInt tok with
      | .error e => .error e
      | .ok v =>
        match go rest with
        | .error e => .error e
        | .ok vs => .ok (v :: vs)

/-- Embedding of `queryset.filter(tags__id__in=tag_ids)`: the SQL join
against the recipe–tag link table yields one row per (recipe, matching
tag) pair — a recipe matching several ids occurs several times until
`.distinct()`. -/
def filter_tags_id_in (rows : List Recipe) (ids : List Int) : List Recipe :=
  rows.flatMap fun r =>
    (r.tags.filter fun tid => ids.contains (Int.ofNat tid)).map fun _ => r

/-- Embedding of `queryset.filter(ingredients__id__in=ingredient_ids)`. -/
def filter_ingredients_id_in (rows : List Recipe) (ids : List Int) : List Recipe :=
  rows.flatMap fun r =>
    (r.ingredients.filter fun iid => ids.contains (Int.ofNat iid)).map fun _ => r

/-- The comparison behind `order_by('-id')`: larger ids first. -/
def recipeDescId (a b : Recipe) : Prop :=
  b.id ≤ a.id

instance : DecidableRel recipeDescId :=
  fun a b => Nat.decLe b.id a.id

instance : IsTotal Recipe recipeDescId :=
  ⟨fun a b => Nat.le_total b.id a.id⟩

instance : IsTrans Recipe recipeDescId :=
  ⟨fun _ _ _ h1 h2 => Nat.le_trans h2 h1⟩

/-- Embedding of `.order_by('-id')`. -/
def order_recipes_desc_id (l : List Recipe) : List Recipe :=
  l.insertionSort recipeDescId

/-- Embedding of `RecipeViewSet.get_queryset`: apply the optional `tags`
and `ingredients` id filters (skipped for absent or empty parameters),
then scope to the authenticated user, de-duplicate, and order by
descending id.  A `ValueError` from `int()` escapes uncaught. -/
def recipe_get_queryset (db : Db) (u : Nat) (tagsParam ingParam : Option String) :
    Except PyExc (List Recipe) :=
  let step1 : Except PyExc (List Recipe) :=
    if truthyParam tagsParam then
      match params_to_ints (tagsParam.getD "") with
      | .error e => .error e
      | .ok ids => .ok (filter_tags_id_in db.recipes ids)
    else .ok db.recipes
  match step1 with
  | .error e => .error e
  | .ok q1 =>
    let step2 : Except PyExc (List Recipe) :=
      if truthyParam ingParam then
        match params_to_ints (ingParam.getD "") with
        | .error e => .error e
        | .ok ids => .ok (filter_ingredients_id_in q1 ids)
      else .ok q1
    match step2 with
    | .error e => .error e
    | .ok q2 =>
      .ok (order_recipes_desc_id ((q2.filter fun r => r.user == u).dedup))

/-- Outcome of `GET /recipes`: either the serialized queryset, or an
exception that this code does not catch (the framework surfaces it as a
server error, not as a field-level 400). -/
inductive ListResponse where
  | ok (body : List Recipe)
  | serverError (e : PyExc)
  deriving Repr, DecidableEq

/-- The `GET /recipes` list endpoint. -/
def recipe_list_endpoint (db : Db) (u : Nat) (tagsParam ingParam : Option String) :
    ListResponse :=
  match recipe_get_queryset db u tagsParam ingParam with
  | .ok l => .ok l
  | .error e => .serverError e

/-- The framework's `get_object` for detail routes: the pk lookup runs
inside `get_queryset()` (detail requests carry no filter parameters), and
a miss raises `Http404`. -/
def recipe_get_object (db : Db) (u pk : Nat) : Option Recipe :=
  match recipe_get_queryset db u none none with
  | .ok l => l.find? fun r => r.id == pk
  | .error _ => none

/-- HTTP-level outcome of a detail request. -/
inductive HttpOutcome where
  | ok
  | noContent
  | notFound
  | badRequest
  deriving Repr, DecidableEq

/-- `GET /recipes/{id}`. -/
def recipe_retrieve_request (db : Db) (u pk : Nat) : HttpOutcome × Option Recipe :=
  match recipe_get_object db u pk with
  | some r => (.ok, some r)
  | none => (.notFound, none)

/-- `DELETE /recipes/{id}`: the framework's destroy deletes the object
found via `get_object`. -/
def recipe_destroy_request (db : Db) (u pk : Nat) : HttpOutcome × Db :=
  match recipe_get_object db u pk with
  | some r =>
    (.noContent, { db with recipes := db.recipes.filter fun x => !(x.id == r.id) })
  | none => (.notFound, db)

/-! ### Recipe update (`RecipeSerializer.update`) -/

/-- A partial-update payload (`PATCH /recipes/{id}`): every field
optional; an absent `tags` / `ingredients` key is `none`, a present one —
even an empty list — is `some`. -/
structure RecipeUpdatePayload where
  title : Option String
  description : Option String
  time_minutes : Option Int
  price : Option Int
  link : Option String
  tags : Option (List TagPayload)
  ingredients : Option (List IngredientPayload)
  deriving Repr, DecidableEq

/-- Embedding of `instance.tags.clear()`: drop the recipe's tag
associations; the `Tag` rows themselves stay. -/
def clearRecipeTags (db : Db) (rid : Nat) : Db :=
  { db with recipes := db.recipes.map fun r =>
      if r.id == rid then { r with tags := [] } else r }

/-- Embedding of `instance.ingredients.clear()`. -/
def clearRecipeIngredients (db : Db) (rid : Nat) : Db :=
  { db with recipes := db.recipes.map fun r =>
      if r.id == rid then { r with ingredients := [] } else r }

/-- Embedding of `super().update(instance, validated_data)`: write the
remaining scalar fields of the instance and save. -/
def applyScalarUpdates (db : Db) (rid : Nat) (p : RecipeUpdatePayload) : Db :=
  { db with recipes := db.recipes.map fun r =>
      if r.id == rid then
        { r with
          title := p.title.getD r.title
          description := p.description.getD r.description
          time_minutes := p.time_minutes.getD r.time_minutes
          price := p.price.getD r.price
          link := p.link.getD r.link }
      else r }

/-- Embedding of `RecipeSerializer.update`: a present `tags` key clears
the association set and re-resolves each given name; same for
`ingredients`; an absent key leaves the associations alone; scalar fields
are then written by the parent update. -/
def serializer_update (db : Db) (u rid : Nat) (p : RecipeUpdatePayload) : Db :=
  let db1 :=
    match p.tags with
    | none => db
    | some ts => create_or_update_tags (clearRecipeTags db rid) u rid ts
  let db2 :=
    match p.ingredients with
    | none => db1
    | some ips => get_or_create_ingredients (clearRecipeIngredients db1 rid) u rid ips
  applyScalarUpdates db2 rid p

/-- Serializer validation for a partial update: provided character fields
must still be non-empty. -/
def recipeUpdatePayloadValid (p : RecipeUpdatePayload) : Bool :=
  (match p.title with | none => true | some t => !strEmpty t) &&
  (match p.tags with | none => true | some ts => ts.all fun t => !strEmpty t.name) &&
  (match p.ingredients with
   | none => true
   | some ips => ips.all fun i => !strEmpty i.name)

/-- `PATCH /recipes/{id}`: `get_object` (404 on a miss), then validation
(400 leaves the database untouched), then `serializer.save()`. -/
def recipe_update_request (db : Db) (u pk : Nat) (p : RecipeUpdatePayload) :
    HttpOutcome × Db :=
  match recipe_get_object db u pk with
  | none => (.notFound, db)
  | some r =>
    if recipeUpdatePayloadValid p then (.ok, serializer_update db u r.id p)
    else (.badRequest, db)

/-- The tag list of the stored recipe row with the given id. -/
def recipeTags (db : Db) (rid : Nat) : Option (List Nat) :=
  (db.recipes.find? fun r => r.id == rid).map (·.tags)

/-- The ingredient list of the stored recipe row with the given id. -/
def recipeIngredients (db : Db) (rid : Nat) : Option (List Nat) :=
  (db.recipes.find? fun r => r.id == rid).map (·.ingredients)

/-- The stored image reference of the recipe row with the given id. -/
def recipeImage (db : Db) (rid : Nat) : Option (Option String) :=
  (db.recipes.find? fun r => r.id == rid).map (·.image)

/-! ### Tag and ingredient viewsets (`BaseRecipeAttrViewSet`) -/

/-- The comparison behind `order_by('-name')` on tags. -/
def tagDescName (a b : Tag) : Prop :=
  listLe b.name.toList a.name.toList = true

instance : DecidableRel tagDescName :=
  fun a b => instDecidableEqBool (listLe b.name.toList a.name.toList) true

/-- The comparison behind `order_by('-name')` on ingredients. -/
def ingredientDescName (a b : Ingredient) : Prop :=
  listLe b.name.toList a.name.toList = true

instance : DecidableRel ingredientDescName :=
  fun a b => instDecidableEqBool (listLe b.name.toList a.name.toList) true

/-- Embedding of
`bool(int(self.request.query_params.get('assigned_only', 0)))`: the
default is the integer 0; a present parameter goes through `int()`, whose
`ValueError` on a malformed value is uncaught. -/
def assigned_only_flag (p : Option String) : Except PyExc Bool :=
  match p with
  | none => .ok false
  | some s =>
    match pyInt s.toList with
    | .error e => .error e
    | .ok n => .ok (!(n == 0))

/-- Embedding of `queryset.filter(recipe__isnull=False)` for tags: the
join keeps one row per referencing recipe. -/
def filter_assigned_tags (db : Db) (ts : List Tag) : List Tag :=
  ts.flatMap fun t =>
    (db.recipes.filter fun r => r.tags.contains t.id).map fun _ => t

/-- Embedding of `queryset.filter(recipe__isnull=False)` for ingredients. -/
def filter_assigned_ingredients (db : Db) (ins : List Ingredient) : List Ingredient :=
  ins.flatMap fun i =>
    (db.recipes.filter fun r => r.ingredients.contains i.id).map fun _ => i

/-- Embedding of `BaseRecipeAttrViewSet.get_queryset` for the tag table:
optional assigned-only filter, then scope to the authenticated user,
de-duplicate, and order by descending name. -/
def tag_get_queryset (db : Db) (u : Nat) (assignedParam : Option String) :
    Except PyExc (List Tag) :=
  match assigned_only_flag assignedParam with
  | .error e => .error e
  | .ok b =>
    let q := if b then filter_assigned_tags db db.tags else db.tags
    .ok (((q.filter fun t => t.user == u).dedup).insertionSort tagDescName)

/-- Embedding of `BaseRecipeAttrViewSet.get_queryset` for the ingredient
table. -/
def ingredient_get_queryset (db : Db) (u : Nat) (assignedParam : Option String) :
    Except PyExc (List Ingredient) :=
  match assigned_only_flag assignedParam with
  | .error e => .error e
  | .ok b =>
    let q := if b then filter_assigned_ingredients db db.ingredients else db.ingredients
    .ok (((q.filter fun i => i.user == u).dedup).insertionSort ingredientDescName)

/-- `get_object` for the tag detail routes (no query parameters there). -/
def tag_get_object (db : Db) (u pk : Nat) : Option Tag :=
  match tag_get_queryset db u none with
  | .ok l => l.find? fun t => t.id == pk
  | .error _ => none

/-- `get_object` for the ingredient detail routes. -/
def ingredient_get_object (db : Db) (u pk : Nat) : Option Ingredient :=
  match ingredient_get_queryset db u none with
  | .ok l => l.find? fun i => i.id == pk
  | .error _ => none

/-- `PATCH /tags/{id}`: lookup scoped to the caller, then validate the new
name, then save. -/
def tag_update_request (db : Db) (u pk : Nat) (p : TagPayload) : HttpOutcome × Db :=
  match tag_get_object db u pk with
  | none => (.notFound, db)
  | some t =>
    if strEmpty p.name then (.badRequest, db)
    else
      (.ok, { db with tags := db.tags.map fun x =>
                if x.id == t.id then { x with name := p.name } else x })

/-- `DELETE /tags/{id}`. -/
def tag_destroy_request (db : Db) (u pk : Nat) : HttpOutcome × Db :=
  match tag_get_object db u pk with
  | some t => (.noContent, { db with tags := db.tags.filter fun x => !(x.id == t.id) })
  | none => (.notFound, db)

/-- `PATCH /ingredients/{id}`. -/
def ingredient_update_request (db : Db) (u pk : Nat) (p : IngredientPayload) :
    HttpOutcome × Db :=
  match ingredient_get_object db u pk with
  | none => (.notFound, db)
  | some i =>
    if strEmpty p.name then (.badRequest, db)
    else
      (.ok, { db with ingredients := db.ingredients.map fun x =>
                if x.id == i.id then { x with name := p.name } else x })

/-- `DELETE /ingredients/{id}`. -/
def ingredient_destroy_request (db : Db) (u pk : Nat) : HttpOutcome × Db :=
  match ingredient_get_object db u pk with
  | some i =>
    (.noContent, { db with ingredients := db.ingredients.filter fun x => !(x.id == i.id) })
  | none => (.notFound, db)

/-! ### Image upload (`recipe_image_file_path`, `RecipeViewSet.upload_image`) -/

/-- Embedding of `os.path.splitext(filename)[1]`: the extension starts at
the last dot of the final path component, provided a non-dot character
comes before it there; otherwise it is empty. -/
def splitext_ext (filename : String) : String :=
  let base :=
    match splitAtLastChar '/' filename.toList with
    | some (_, b) => b
    | none => filename.toList
  match splitAtLastChar '.' base with
  | some (stem, extBody) =>
    if stem.any (fun c => !(c == '.')) then String.mk ('.' :: extBody) else ""
  | none => ""

/-- Embedding of `recipe_image_file_path` in `app/core/models.py`: a fresh
random identifier (`uuid.uuid4()`, passed in here explicitly) plus the
original file's extension, under `uploads/recipe/`. -/
def recipe_image_file_path (uuidHex : String) (filename : String) : String :=
  "uploads/recipe/" ++ (uuidHex ++ splitext_ext filename)

/-- The multipart body of `POST /recipes/{id}/upload-image`: `none` when
the required `image` field is missing; `isImage` records whether the
framework's image field accepts the bytes as a valid image. -/
structure UploadPayload where
  filename : String
  isImage : Bool
  deriving Repr, DecidableEq

/-- Outcome of the image-upload endpoint. -/
inductive UploadResult where
  | ok (rid : Nat) (image : String)
  | badRequest
  | notFound
  deriving Repr, DecidableEq

/-- Embedding of `RecipeViewSet.upload_image`: `get_object` (404 on a
miss), then serializer validation — a missing or non-image payload yields
400 with nothing written — and on success the file is stored at the
generated path and the reference saved on the recipe. -/
def upload_image_request (db : Db) (u pk : Nat) (payload : Option UploadPayload)
    (uuidHex : String) : UploadResult × Db :=
  match recipe_get_object db u pk with
  | none => (.notFound, db)
  | some r =>
    match payload with
    | some pl =>
      if pl.isImage then
        let path := recipe_image_file_path uuidHex pl.filename
        (.ok r.id path,
         { db with recipes := db.recipes.map fun x =>
             if x.id == r.id then { x with image := some path } else x })
      else (.badRequest, db)
    | none => (.badRequest, db)

/-- Whether `int()` accepts a token (used to state which filter tokens
make `_params_to_ints` raise). -/
def pyIntOk (tok : List Char) : Bool :=
  match pyInt tok with
  | .ok _ => true
  | .error _ => false

/-- The payload of the repository's test
`test_create_recipe_with_invalid_tags`: one tag named `""`. -/
def invalidTagPayload : RecipePayload :=
  { title := "Sample Recipe", description := "", time_minutes := 30
    price := 1000, link := "", tags := [⟨""⟩], ingredients := [] }

/-- An update payload with every key absent. -/
def emptyUpdatePayload : RecipeUpdatePayload :=
  { title := none, description := none, time_minutes := none, price := none
    link := none, tags := none, ingredients := none }

/-- An update payload whose `tags` key is present as the empty list. -/
def clearTagsPayload : RecipeUpdatePayload :=
  { emptyUpdatePayload with tags := some [] }

/-- Sample rows used by the concrete witnesses. -/
def sampleR1 : Recipe :=
  { id := 1, user := 10, title := "Pasta", description := "", time_minutes := 5
    price := 500, link := "", tags := [1], ingredients := [3], image := none }

/-- Second sample recipe of user 10, linked to tags 1 and 2. -/
def sampleR2 : Recipe :=
  { id := 2, user := 10, title := "Cake", description := "", time_minutes := 30
    price := 1200, link := "", tags := [1, 2], ingredients := [], image := none }

/-- A recipe owned by a different user (20). -/
def sampleR3 : Recipe :=
  { id := 3, user := 20, title := "Soup", description := "", time_minutes := 10
    price := 300, link := "", tags := [], ingredients := [], image := none }

/-- A database already holding an account with email `a@b.c`, for the
duplicate-email cases. -/
def dupDb : Db :=
  { emptyDb with users := [⟨1, "a@b.c", "x"⟩], nextUserId := 2 }

/-- A two-user database with recipes, tags and ingredients on both sides. -/
def sampleDb : Db :=
  { users := [⟨10, "a@example.com", "h"⟩, ⟨20, "b@example.com", "h"⟩]
    recipes := [sampleR1, sampleR2, sampleR3]
    tags := [⟨1, 10, "Vegan"⟩, ⟨2, 10, "Dessert"⟩, ⟨4, 20, "Salty"⟩]
    ingredients := [⟨3, 10, "Salt"⟩, ⟨5, 20, "Pepper"⟩]
    nextUserId := 21, nextRecipeId := 4, nextTagId := 6, nextIngredientId := 6 }

/-! ### General helper lemmas -/

theorem find?_append_none {α} (p : α → Bool) (l₁ l₂ : List α)
    (h : l₁.find? p = none) : (l₁ ++ l₂).find? p = l₂.find? p := by
  rw [List.find?_append, h, Option.none_or]

theorem splitAtLastChar_of_not_mem (sep : Char) (cs : List Char) (h : sep ∉ cs) :
    splitAtLastChar sep cs = none := by
  induction cs with
  | nil => rfl
  | cons c rest ih =>
    have hc : ¬c = sep := fun hcs => h (hcs ▸ List.mem_cons_self c rest)
    have hrest : sep ∉ rest := fun hm => h (List.mem_cons_of_mem c hm)
    simp [splitAtLastChar, ih hrest, hc]

theorem splitAtLastChar_append (sep : Char) (l d : List Char) (hd : sep ∉ d) :
    splitAtLastChar sep (l ++ sep :: d) = some (l, d) := by
  induction l with
  | nil => simp [splitAtLastChar, splitAtLastChar_of_not_mem sep d hd]
  | cons c l ih => simp [splitAtLastChar, ih]

/-! ### C6 — account creation and the empty email -/

/-- C6 (amended): for every password, creating an account with an empty
email fails with `ValueError` (not the framework's `ValidationError`) and
the database is unchanged; for every non-empty email whose normalization
is not already stored, the creation succeeds and the returned account is
stored; for a non-empty email whose normalization is already stored,
`save()` fails the unique email column with `IntegrityError` and the
database is unchanged. -/
theorem create_user_email_check (db : Db) (email password : String) :
    (strEmpty email = true →
      create_user db email password =
        (Except.error (PyExc.valueError "Users must have an email address"), db)) ∧
    (strEmpty email = false →
      (db.users.any (fun x => x.email == normalize_email email) = false →
        ∃ u : User, (create_user db email password).1 = Except.ok u ∧
          (create_user db email password).2.users = db.users ++ [u]) ∧
      (db.users.any (fun x => x.email == normalize_email email) = true →
        create_user db email password =
          (Except.error
            (PyExc.integrityError "UNIQUE constraint failed: core_user.email"),
           db))) := by
  refine ⟨fun h => by simp [create_user, h], fun h => ⟨fun hdup => ?_, fun hdup => ?_⟩⟩
  · refine ⟨{ id := db.nextUserId, email := normalize_email email
              passwordHash := hashPassword password }, ?_, ?_⟩ <;>
      simp [create_user, h, hdup]
  · simp [create_user, h, hdup]

/-- C6 witness: all three branches of `create_user_email_check` at
concrete inputs — the empty email fails without a write, `a@b.c` is
stored into the empty database, and `a@b.c` is rejected by the database
that already holds it. -/
theorem create_user_email_check_witness :
    create_user emptyDb "" "pw" =
      (Except.error (PyExc.valueError "Users must have an email address"), emptyDb) ∧
    (∃ u : User, (create_user emptyDb "a@b.c" "pw").1 = Except.ok u ∧
      (create_user emptyDb "a@b.c" "pw").2.users = emptyDb.users ++ [u]) ∧
    create_user dupDb "a@b.c" "pw" =
      (Except.error
        (PyExc.integrityError "UNIQUE constraint failed: core_user.email"),
       dupDb) :=
  ⟨(create_user_email_check emptyDb "" "pw").1 (by decide),
   ((create_user_email_check emptyDb "a@b.c" "pw").2 (by decide)).1 (by decide),
   ((create_user_email_check dupDb "a@b.c" "pw").2 (by decide)).2 (by decide)⟩

/-- C6 counterexample: the claim says an empty email fails with
`ValidationError` — `UserManager.create_user` raises `ValueError` (as the
repository's own test `test_new_user_without_email_raises_error`
expects) — and that every non-empty email succeeds — yet the non-empty
`a@b.c` fails against a database already holding it, because the email
column is declared `unique=True` and `save()` raises `IntegrityError`,
storing nothing. -/
theorem create_user_empty_email_not_validation :
    (create_user emptyDb "" "testpass123").1 =
      Except.error (PyExc.valueError "Users must have an email address") ∧
    isValidationErr (create_user emptyDb "" "testpass123").1 = false ∧
    strEmpty "a@b.c" = false ∧
    (create_user dupDb "a@b.c" "pw").1 =
      Except.error
        (PyExc.integrityError "UNIQUE constraint failed: core_user.email") ∧
    (create_user dupDb "a@b.c" "pw").2 = dupDb := by
  exact ⟨rfl, rfl, rfl, rfl, rfl⟩

/-! ### C7 — email domain normalization -/

/-- C7: every stored account email is normalized.  For every address
`local@domain` (with `@` not occurring in the domain part, so the split
is at the last `@`): whatever the database, any account `create_user`
returns carries the email `local@domain.lower()` — the domain lowercased
and the local part kept exactly as given — and on a database not already
holding that normalized address the creation does succeed and store it. -/
theorem create_user_lowercases_domain (db : Db) (password : String)
    (lp dp : List Char) (hd : '@' ∉ dp) :
    (∀ u : User,
      (create_user db (String.mk (lp ++ '@' :: dp)) password).1 = Except.ok u →
      u.email = String.mk (lp ++ '@' :: dp.map Char.toLower)) ∧
    (db.users.any (fun x => x.email
        == normalize_email (String.mk (lp ++ '@' :: dp))) = false →
      ∃ u : User,
        (create_user db (String.mk (lp ++ '@' :: dp)) password).1 = Except.ok u ∧
        u.email = String.mk (lp ++ '@' :: dp.map Char.toLower)) := by
  have hne : strEmpty (String.mk (lp ++ '@' :: dp)) = false := by
    cases lp <;> simp [strEmpty]
  have hsplit : splitAtLastChar '@' (lp ++ '@' :: dp) = some (lp, dp) :=
    splitAtLastChar_append '@' lp dp hd
  have hnorm : normalize_email (String.mk (lp ++ '@' :: dp))
      = String.mk (lp ++ '@' :: dp.map Char.toLower) := by
    simp [normalize_email, hsplit]
  constructor
  · intro u hu
    by_cases hdup : db.users.any (fun x => x.email
        == normalize_email (String.mk (lp ++ '@' :: dp))) = true
    · simp [create_user, hne, hdup] at hu
    · rw [Bool.not_eq_true] at hdup
      simp [create_user, hne, hdup] at hu
      rw [← hu, hnorm]
  · intro hdup
    refine ⟨{ id := db.nextUserId
              email := normalize_email (String.mk (lp ++ '@' :: dp))
              passwordHash := hashPassword password }, ?_, hnorm⟩
    simp [create_user, hne, hdup]

/-- C7 witness: `Test2@Example.com` is stored as `Test2@example.com`. -/
theorem create_user_lowercases_domain_witness :
    ('@' ∉ ['E', 'x', 'a', 'm', 'p', 'l', 'e', '.', 'c', 'o', 'm']) ∧
    (emptyDb.users.any (fun x => x.email
        == normalize_email (String.mk (['T', 'e', 's', 't', '2'] ++ '@' ::
          ['E', 'x', 'a', 'm', 'p', 'l', 'e', '.', 'c', 'o', 'm']))) = false) ∧
    ∃ u : User,
      (create_user emptyDb
        (String.mk (['T', 'e', 's', 't', '2'] ++ '@' ::
          ['E', 'x', 'a', 'm', 'p', 'l', 'e', '.', 'c', 'o', 'm'])) "pw").1
        = Except.ok u ∧
      u.email = String.mk (['T', 'e', 's', 't', '2'] ++ '@' ::
        ['E', 'x', 'a', 'm', 'p', 'l', 'e', '.', 'c', 'o', 'm'].map Char.toLower) :=
  ⟨by decide, by decide,
   (create_user_lowercases_domain emptyDb "pw" _ _ (by decide)).2 (by decide)⟩

/-! ### C1 — a recipe create with an empty tag name persists nothing -/

/-- C1: a recipe-create request containing a tag with an empty name fails
as a whole: the response is 400 and neither a `Recipe` row nor a `Tag` row
is added — validation runs before any save. -/
theorem create_recipe_empty_tag_name_rejected (db : Db) (u : Nat)
    (p : RecipePayload) (tp : TagPayload)
    (hmem : tp ∈ p.tags) (hempty : strEmpty tp.name = true) :
    create_recipe_request db u p = (CreateResult.badRequest, db) ∧
    (create_recipe_request db u p).2.recipes = db.recipes ∧
    (create_recipe_request db u p).2.tags = db.tags := by
  have hall : p.tags.all (fun t => !strEmpty t.name) = false := by
    cases hall : p.tags.all (fun t => !strEmpty t.name)
    · rfl
    · exact absurd (List.all_eq_true.mp hall tp hmem) (by simp [hempty])
  have hvalid : recipePayloadValid p = false := by
    simp [recipePayloadValid, hall]
  refine ⟨?_, ?_, ?_⟩ <;> simp [create_recipe_request, hvalid]

/-- C1 witness: the empty-named tag payload on the empty database — 400,
zero recipe rows, zero tag rows. -/
theorem create_recipe_empty_tag_name_rejected_witness :
    (⟨""⟩ : TagPayload) ∈ invalidTagPayload.tags ∧
    strEmpty (TagPayload.name ⟨""⟩) = true ∧
    create_recipe_request emptyDb 1 invalidTagPayload
      = (CreateResult.badRequest, emptyDb) ∧
    (create_recipe_request emptyDb 1 invalidTagPayload).2.recipes
      = emptyDb.recipes ∧
    (create_recipe_request emptyDb 1 invalidTagPayload).2.tags = emptyDb.tags := by
  have h := create_recipe_empty_tag_name_rejected emptyDb 1 invalidTagPayload
    ⟨""⟩ (by decide) (by decide)
  exact ⟨by decide, by decide, h.1, h.2.1, h.2.2⟩

/-! ### C3 — get-or-create is idempotent -/

/-- C3: resolving a tag or ingredient by `(owner, name)` creates the row
exactly when it is absent, and a repeated resolution with the same pair
is a fixpoint — it returns the same entity and leaves the database (hence
the owner's row count) unchanged. -/
theorem resolve_or_create_idempotent (db : Db) (u : Nat) (n : String)
    (hn : strEmpty n = false) :
    (db.tags.find? (fun t => t.user == u && t.name == n) = none →
      (tag_get_or_create db u n).2.tags = db.tags ++ [(tag_get_or_create db u n).1]) ∧
    tag_get_or_create (tag_get_or_create db u n).2 u n = tag_get_or_create db u n ∧
    (db.ingredients.find? (fun i => i.user == u && i.name == n) = none →
      (ingredient_get_or_create db u n).2.ingredients
        = db.ingredients ++ [(ingredient_get_or_create db u n).1]) ∧
    ingredient_get_or_create (ingredient_get_or_create db u n).2 u n
      = ingredient_get_or_create db u n := by
  refine ⟨?_, ?_, ?_, ?_⟩
  · intro hf
    simp [tag_get_or_create, hf]
  · cases hf : db.tags.find? (fun t => t.user == u && t.name == n) with
    | some t => simp [tag_get_or_create, hf]
    | none =>
      have hfind : (db.tags ++ [(⟨db.nextTagId, u, n⟩ : Tag)]).find?
          (fun t => t.user == u && t.name == n) = some ⟨db.nextTagId, u, n⟩ := by
        rw [find?_append_none _ _ _ hf]
        simp [List.find?]
      simp [tag_get_or_create, hf, hfind]
  · intro hf
    simp [ingredient_get_or_create, hf]
  · cases hf : db.ingredients.find? (fun i => i.user == u && i.name == n) with
    | some t => simp [ingredient_get_or_create, hf]
    | none =>
      have hfind : (db.ingredients ++ [(⟨db.nextIngredientId, u, n⟩ : Ingredient)]).find?
          (fun i => i.user == u && i.name == n) = some ⟨db.nextIngredientId, u, n⟩ := by
        rw [find?_append_none _ _ _ hf]
        simp [List.find?]
      simp [ingredient_get_or_create, hf, hfind]

/-- C3 witness: resolving `Vegan` twice for user 1 on the empty database
creates one row on the first call and is a fixpoint on the second. -/
theorem resolve_or_create_idempotent_witness :
    strEmpty "Vegan" = false ∧
    (tag_get_or_create emptyDb 1 "Vegan").2.tags
      = emptyDb.tags ++ [(tag_get_or_create emptyDb 1 "Vegan").1] ∧
    tag_get_or_create (tag_get_or_create emptyDb 1 "Vegan").2 1 "Vegan"
      = tag_get_or_create emptyDb 1 "Vegan" ∧
    ingredient_get_or_create (ingredient_get_or_create emptyDb 1 "Vegan").2 1 "Vegan"
      = ingredient_get_or_create emptyDb 1 "Vegan" := by
  have h := resolve_or_create_idempotent emptyDb 1 "Vegan" (by decide)
  exact ⟨by decide, h.1 rfl, h.2.1, h.2.2.2⟩

/-! ### Ordering and lookup lemmas -/

theorem listLe_total : ∀ x y : List Char, listLe x y = true ∨ listLe y x = true := by
  intro x
  induction x with
  | nil => intro y; left; rfl
  | cons a as ih =>
    intro y
    cases y with
    | nil => right; rfl
    | cons b bs =>
      by_cases h1 : a.toNat < b.toNat
      · left; simp [listLe, h1]
      · by_cases h2 : b.toNat < a.toNat
        · right; simp [listLe, h2]
        · rcases ih bs with h | h
          · left; simp [listLe, h1, h2, h]
          · right; simp [listLe, h1, h2, h]

theorem listLe_trans : ∀ x y z : List Char,
    listLe x y = true → listLe y z = true → listLe x z = true := by
  intro x
  induction x with
  | nil => intro y z _ _; rfl
  | cons a as ih =>
    intro y z hxy hyz
    cases y with
    | nil => simp [listLe] at hxy
    | cons b bs =>
      cases z with
      | nil => simp [listLe] at hyz
      | cons c cs =>
        simp only [listLe] at hxy hyz ⊢
        split_ifs at hxy hyz ⊢ <;>
          first
            | rfl
            | omega
            | cases hxy
            | cases hyz
            | exact ih bs cs hxy hyz

instance : IsTotal Tag tagDescName :=
  ⟨fun a b => listLe_total b.name.toList a.name.toList⟩

instance : IsTrans Tag tagDescName :=
  ⟨fun _ b _ h1 h2 => listLe_trans _ b.name.toList _ h2 h1⟩

instance : IsTotal Ingredient ingredientDescName :=
  ⟨fun a b => listLe_total b.name.toList a.name.toList⟩

instance : IsTrans Ingredient ingredientDescName :=
  ⟨fun _ b _ h1 h2 => listLe_trans _ b.name.toList _ h2 h1⟩

/-- In a table whose key column is strictly increasing, rows are
determined by their key. -/
theorem pairwise_lt_inj {α} (f : α → Nat) :
    ∀ {l : List α}, l.Pairwise (fun a b => f a < f b) →
      ∀ {x y}, x ∈ l → y ∈ l → f x = f y → x = y := by
  intro l
  induction l with
  | nil => intro _ x y hx; cases hx
  | cons a l ih =>
    intro h x y hx hy hxy
    have hhead := (List.pairwise_cons.mp h).1
    have htail := (List.pairwise_cons.mp h).2
    rcases List.mem_cons.mp hx with rfl | hx' <;>
      rcases List.mem_cons.mp hy with rfl | hy'
    · rfl
    · exact absurd hxy (Nat.ne_of_lt (hhead y hy'))
    · exact absurd hxy.symm (Nat.ne_of_lt (hhead x hx'))
    · exact ih htail hx' hy' hxy

/-- A rowwise update that never changes primary keys commutes with a
lookup by primary key. -/
theorem find?_id_map (g : Recipe → Recipe) (hg : ∀ r, (g r).id = r.id)
    (l : List Recipe) (pk : Nat) :
    (l.map g).find? (fun r => r.id == pk) = (l.find? fun r => r.id == pk).map g := by
  induction l with
  | nil => rfl
  | cons a l ih =>
    cases h : (a.id == pk) with
    | true => simp [List.find?, hg, h]
    | false => simp [List.find?, hg, h, ih]

theorem orderedInsert_of_forall_not {α} (r : α → α → Prop) [DecidableRel r] (x : α) :
    ∀ l : List α, (∀ y ∈ l, ¬r x y) → l.orderedInsert r x = l ++ [x] := by
  intro l
  induction l with
  | nil => intro _; rfl
  | cons y l ih =>
    intro h
    have hy : ¬r x y := h y (List.mem_cons_self y l)
    simp only [List.orderedInsert, if_neg hy, List.cons_append]
    rw [ih fun z hz => h z (List.mem_cons_of_mem y hz)]

/-- Sorting a key-ascending table by descending key reverses it. -/
theorem insertionSort_descId_of_ascending :
    ∀ l : List Recipe, l.Pairwise (fun a b => a.id < b.id) →
      l.insertionSort recipeDescId = l.reverse := by
  intro l
  induction l with
  | nil => intro _; rfl
  | cons a l ih =>
    intro h
    have hhead := (List.pairwise_cons.mp h).1
    rw [List.insertionSort, ih (List.pairwise_cons.mp h).2,
      orderedInsert_of_forall_not recipeDescId a l.reverse ?_, List.reverse_cons]
    intro y hy
    have : a.id < y.id := hhead y (List.mem_reverse.mp hy)
    exact fun hle => absurd this (Nat.not_lt.mpr hle)

/-! ### Queryset evaluation and membership lemmas -/

theorem recipe_get_queryset_no_params (db : Db) (u : Nat) :
    recipe_get_queryset db u none none
      = .ok (order_recipes_desc_id ((db.recipes.filter fun r => r.user == u).dedup)) :=
  rfl

theorem recipe_get_queryset_tags_ok (db : Db) (u : Nat) (s : String)
    (ids : List Int) (hs : strEmpty s = false) (hp : params_to_ints s = .ok ids) :
    recipe_get_queryset db u (some s) none
      = .ok (order_recipes_desc_id
          (((filter_tags_id_in db.recipes ids).filter fun r => r.user == u).dedup)) := by
  simp [recipe_get_queryset, truthyParam, hs, hp]

theorem recipe_get_queryset_ing_ok (db : Db) (u : Nat) (s : String)
    (ids : List Int) (hs : strEmpty s = false) (hp : params_to_ints s = .ok ids) :
    recipe_get_queryset db u none (some s)
      = .ok (order_recipes_desc_id
          (((filter_ingredients_id_in db.recipes ids).filter fun r => r.user == u).dedup)) := by
  simp [recipe_get_queryset, truthyParam, hs, hp]

theorem recipe_get_queryset_tags_error (db : Db) (u : Nat) (s : String)
    (e : PyExc) (hs : strEmpty s = false) (hp : params_to_ints s = .error e) :
    recipe_get_queryset db u (some s) none = .error e := by
  simp [recipe_get_queryset, truthyParam, hs, hp]

theorem recipe_get_queryset_ing_error (db : Db) (u : Nat) (s : String)
    (e : PyExc) (hs : strEmpty s = false) (hp : params_to_ints s = .error e) :
    recipe_get_queryset db u none (some s) = .error e := by
  simp [recipe_get_queryset, truthyParam, hs, hp]

theorem mem_order_dedup_filter (p : Recipe → Bool) (l : List Recipe) (x : Recipe) :
    x ∈ order_recipes_desc_id ((l.filter p).dedup) ↔ x ∈ l ∧ p x = true := by
  rw [order_recipes_desc_id, (List.perm_insertionSort recipeDescId _).mem_iff,
    List.mem_dedup, List.mem_filter]

theorem nodup_order_dedup (l : List Recipe) :
    (order_recipes_desc_id l.dedup).Nodup :=
  (List.perm_insertionSort recipeDescId l.dedup).nodup_iff.mpr (List.nodup_dedup l)

theorem mem_filter_tags_id_in (rows : List Recipe) (ids : List Int) (x : Recipe) :
    x ∈ filter_tags_id_in rows ids ↔
      x ∈ rows ∧ ∃ tid ∈ x.tags, ids.contains (Int.ofNat tid) = true := by
  simp only [filter_tags_id_in, List.mem_flatMap, List.mem_map, List.mem_filter]
  constructor
  · rintro ⟨a, ha, tid, ⟨htid, hc⟩, rfl⟩
    exact ⟨ha, tid, htid, hc⟩
  · rintro ⟨hx, tid, htid, hc⟩
    exact ⟨x, hx, tid, ⟨htid, hc⟩, rfl⟩

theorem mem_filter_ingredients_id_in (rows : List Recipe) (ids : List Int) (x : Recipe) :
    x ∈ filter_ingredients_id_in rows ids ↔
      x ∈ rows ∧ ∃ iid ∈ x.ingredients, ids.contains (Int.ofNat iid) = true := by
  simp only [filter_ingredients_id_in, List.mem_flatMap, List.mem_map, List.mem_filter]
  constructor
  · rintro ⟨a, ha, iid, ⟨hiid, hc⟩, rfl⟩
    exact ⟨ha, iid, hiid, hc⟩
  · rintro ⟨hx, iid, hiid, hc⟩
    exact ⟨x, hx, iid, ⟨hiid, hc⟩, rfl⟩

theorem mem_recipe_queryset_none (db : Db) (u : Nat) (x : Recipe) :
    x ∈ order_recipes_desc_id ((db.recipes.filter fun r => r.user == u).dedup) ↔
      x ∈ db.recipes ∧ x.user = u := by
  rw [mem_order_dedup_filter]
  simp

theorem tag_get_queryset_no_params (db : Db) (u : Nat) :
    tag_get_queryset db u none
      = .ok (((db.tags.filter fun t => t.user == u).dedup).insertionSort tagDescName) :=
  rfl

theorem ingredient_get_queryset_no_params (db : Db) (u : Nat) :
    ingredient_get_queryset db u none
      = .ok (((db.ingredients.filter fun i => i.user == u).dedup).insertionSort
          ingredientDescName) :=
  rfl

theorem mem_tag_queryset_none (db : Db) (u : Nat) (x : Tag) :
    x ∈ ((db.tags.filter fun t => t.user == u).dedup).insertionSort tagDescName ↔
      x ∈ db.tags ∧ x.user = u := by
  rw [(List.perm_insertionSort tagDescName _).mem_iff, List.mem_dedup, List.mem_filter]
  simp

theorem mem_ingredient_queryset_none (db : Db) (u : Nat) (x : Ingredient) :
    x ∈ ((db.ingredients.filter fun i => i.user == u).dedup).insertionSort
        ingredientDescName ↔
      x ∈ db.ingredients ∧ x.user = u := by
  rw [(List.perm_insertionSort ingredientDescName _).mem_iff, List.mem_dedup,
    List.mem_filter]
  simp

/-! ### `get_object` lemmas: what a scoped lookup can return -/

theorem recipe_get_object_spec (db : Db) (u pk : Nat) (r : Recipe)
    (h : recipe_get_object db u pk = some r) :
    r ∈ db.recipes ∧ r.user = u ∧ r.id = pk := by
  unfold recipe_get_object at h
  rw [recipe_get_queryset_no_params] at h
  have hmem := (mem_recipe_queryset_none db u r).mp (List.mem_of_find?_eq_some h)
  have hpred := List.find?_some h
  exact ⟨hmem.1, hmem.2, by simpa using hpred⟩

theorem recipe_get_object_other_user (db : Db) (u : Nat) (hwf : WellFormedDb db)
    (r : Recipe) (hr : r ∈ db.recipes) (hu : r.user ≠ u) :
    recipe_get_object db u r.id = none := by
  unfold recipe_get_object
  rw [recipe_get_queryset_no_params]
  apply List.find?_eq_none.mpr
  intro x hx hbeq
  have hmem := (mem_recipe_queryset_none db u x).mp hx
  have hxr : x = r :=
    pairwise_lt_inj (fun a => a.id) hwf.1 hmem.1 hr (by simpa using hbeq)
  exact hu (hxr ▸ hmem.2)

theorem tag_get_object_other_user (db : Db) (u : Nat) (hwf : WellFormedDb db)
    (t : Tag) (ht : t ∈ db.tags) (hu : t.user ≠ u) :
    tag_get_object db u t.id = none := by
  unfold tag_get_object
  rw [tag_get_queryset_no_params]
  apply List.find?_eq_none.mpr
  intro x hx hbeq
  have hmem := (mem_tag_queryset_none db u x).mp hx
  have hxt : x = t :=
    pairwise_lt_inj (fun a => a.id) hwf.2.1 hmem.1 ht (by simpa using hbeq)
  exact hu (hxt ▸ hmem.2)

theorem ingredient_get_object_other_user (db : Db) (u : Nat) (hwf : WellFormedDb db)
    (i : Ingredient) (hi : i ∈ db.ingredients) (hu : i.user ≠ u) :
    ingredient_get_object db u i.id = none := by
  unfold ingredient_get_object
  rw [ingredient_get_queryset_no_params]
  apply List.find?_eq_none.mpr
  intro x hx hbeq
  have hmem := (mem_ingredient_queryset_none db u x).mp hx
  have hxi : x = i :=
    pairwise_lt_inj (fun a => a.id) hwf.2.2 hmem.1 hi (by simpa using hbeq)
  exact hu (hxi ▸ hmem.2)

/-! ### C2 — cross-user objects are invisible (404, not 403) -/

/-- C2: for every authenticated user and every recipe, tag or ingredient
owned by a different user, each detail request the router exposes —
retrieve/update/delete for recipes, update/delete for tags and
ingredients — answers not-found and changes nothing, because `get_object`
looks the pk up inside the user-scoped queryset. -/
theorem cross_user_entities_invisible (db : Db) (u : Nat) (hwf : WellFormedDb db) :
    (∀ r ∈ db.recipes, r.user ≠ u →
      recipe_retrieve_request db u r.id = (HttpOutcome.notFound, none) ∧
      (∀ p, recipe_update_request db u r.id p = (HttpOutcome.notFound, db)) ∧
      recipe_destroy_request db u r.id = (HttpOutcome.notFound, db)) ∧
    (∀ t ∈ db.tags, t.user ≠ u →
      (∀ p, tag_update_request db u t.id p = (HttpOutcome.notFound, db)) ∧
      tag_destroy_request db u t.id = (HttpOutcome.notFound, db)) ∧
    (∀ i ∈ db.ingredients, i.user ≠ u →
      (∀ p, ingredient_update_request db u i.id p = (HttpOutcome.notFound, db)) ∧
      ingredient_destroy_request db u i.id = (HttpOutcome.notFound, db)) := by
  refine ⟨?_, ?_, ?_⟩
  · intro r hr hu
    have h := recipe_get_object_other_user db u hwf r hr hu
    exact ⟨by simp [recipe_retrieve_request, h],
      fun p => by simp [recipe_update_request, h],
      by simp [recipe_destroy_request, h]⟩
  · intro t ht hu
    have h := tag_get_object_other_user db u hwf t ht hu
    exact ⟨fun p => by simp [tag_update_request, h],
      by simp [tag_destroy_request, h]⟩
  · intro i hi hu
    have h := ingredient_get_object_other_user db u hwf i hi hu
    exact ⟨fun p => by simp [ingredient_update_request, h],
      by simp [ingredient_destroy_request, h]⟩

/-- C2 witness: user 10 against user 20's recipe 3, tag 4 and
ingredient 5 in the sample database — every detail request is 404 and the
database is untouched. -/
theorem cross_user_entities_invisible_witness :
    WellFormedDb sampleDb ∧
    sampleR3 ∈ sampleDb.recipes ∧ sampleR3.user ≠ 10 ∧
    recipe_retrieve_request sampleDb 10 sampleR3.id = (HttpOutcome.notFound, none) ∧
    recipe_update_request sampleDb 10 sampleR3.id emptyUpdatePayload
      = (HttpOutcome.notFound, sampleDb) ∧
    recipe_destroy_request sampleDb 10 sampleR3.id = (HttpOutcome.notFound, sampleDb) ∧
    tag_update_request sampleDb 10 4 ⟨"Spicy"⟩ = (HttpOutcome.notFound, sampleDb) ∧
    tag_destroy_request sampleDb 10 4 = (HttpOutcome.notFound, sampleDb) ∧
    ingredient_update_request sampleDb 10 5 ⟨"Sugar"⟩
      = (HttpOutcome.notFound, sampleDb) ∧
    ingredient_destroy_request sampleDb 10 5 = (HttpOutcome.notFound, sampleDb) := by
  have h := cross_user_entities_invisible sampleDb 10 (by decide)
  have hr := h.1 sampleR3 (by decide) (by decide)
  have ht := h.2.1 ⟨4, 20, "Salty"⟩ (by decide) (by decide)
  have hi := h.2.2 ⟨5, 20, "Pepper"⟩ (by decide) (by decide)
  exact ⟨by decide, by decide, by decide, hr.1, hr.2.1 _, hr.2.2,
    ht.1 _, ht.2, hi.1 _, hi.2⟩

/-! ### C8 — list scoping and default ordering -/

/-- C8: each list endpoint returns exactly the caller's rows; recipes
come back in reverse insertion order (descending auto-increment id), tags
and ingredients in reverse name order. -/
theorem list_scoped_default_order (db : Db) (u : Nat) (hwf : WellFormedDb db) :
    recipe_get_queryset db u none none
      = .ok ((db.recipes.filter fun r => r.user == u).reverse) ∧
    (∃ L, tag_get_queryset db u none = .ok L ∧
      (∀ t, t ∈ L ↔ t ∈ db.tags ∧ t.user = u) ∧ L.Sorted tagDescName) ∧
    (∃ L, ingredient_get_queryset db u none = .ok L ∧
      (∀ i, i ∈ L ↔ i ∈ db.ingredients ∧ i.user = u) ∧
      L.Sorted ingredientDescName) := by
  refine ⟨?_, ?_, ?_⟩
  · rw [recipe_get_queryset_no_params]
    have hne : db.recipes.Pairwise (fun a b => a ≠ b) := by
      refine hwf.1.imp ?_
      intro a b hab heq
      exact Nat.lt_irrefl b.id (heq ▸ hab)
    have hnd : (db.recipes.filter fun r => r.user == u).Nodup := hne.filter _
    have hp : (db.recipes.filter fun r => r.user == u).Pairwise
        (fun a b => a.id < b.id) := hwf.1.filter _
    simp only [order_recipes_desc_id]
    rw [List.dedup_eq_self.mpr hnd, insertionSort_descId_of_ascending _ hp]
  · exact ⟨_, tag_get_queryset_no_params db u,
      fun t => mem_tag_queryset_none db u t,
      List.sorted_insertionSort tagDescName _⟩
  · exact ⟨_, ingredient_get_queryset_no_params db u,
      fun i => mem_ingredient_queryset_none db u i,
      List.sorted_insertionSort ingredientDescName _⟩

/-- C8 witness: the sample database for user 10. -/
theorem list_scoped_default_order_witness :
    WellFormedDb sampleDb ∧
    recipe_get_queryset sampleDb 10 none none
      = .ok ((sampleDb.recipes.filter fun r => r.user == 10).reverse) ∧
    (∃ L, tag_get_queryset sampleDb 10 none = .ok L ∧
      (∀ t, t ∈ L ↔ t ∈ sampleDb.tags ∧ t.user = 10) ∧ L.Sorted tagDescName) ∧
    (∃ L, ingredient_get_queryset sampleDb 10 none = .ok L ∧
      (∀ i, i ∈ L ↔ i ∈ sampleDb.ingredients ∧ i.user = 10) ∧
      L.Sorted ingredientDescName) := by
  have h := list_scoped_default_order sampleDb 10 (by decide)
  exact ⟨by decide, h.1, h.2.1, h.2.2⟩

/-! ### C4 — id filters are an OR, scoped and de-duplicated -/

/-- C4: a recipe list filtered by a comma-separated id list (for `tags` or
for `ingredients`) returns exactly the caller's recipes linked to at least
one of the given ids in that relation, and the result has no duplicates
even when a recipe matches several ids. -/
theorem recipe_list_filter_or (db : Db) (u : Nat) (s : String) (ids : List Int)
    (hs : strEmpty s = false) (hp : params_to_ints s = .ok ids) :
    (∃ L, recipe_get_queryset db u (some s) none = .ok L ∧
      (∀ x, x ∈ L ↔ x ∈ db.recipes ∧ x.user = u ∧
        ∃ tid ∈ x.tags, ids.contains (Int.ofNat tid) = true) ∧
      L.Nodup) ∧
    (∃ L, recipe_get_queryset db u none (some s) = .ok L ∧
      (∀ x, x ∈ L ↔ x ∈ db.recipes ∧ x.user = u ∧
        ∃ iid ∈ x.ingredients, ids.contains (Int.ofNat iid) = true) ∧
      L.Nodup) := by
  constructor
  · refine ⟨_, recipe_get_queryset_tags_ok db u s ids hs hp, ?_, nodup_order_dedup _⟩
    intro x
    rw [mem_order_dedup_filter, mem_filter_tags_id_in]
    simp only [beq_iff_eq]
    tauto
  · refine ⟨_, recipe_get_queryset_ing_ok db u s ids hs hp, ?_, nodup_order_dedup _⟩
    intro x
    rw [mem_order_dedup_filter, mem_filter_ingredients_id_in]
    simp only [beq_iff_eq]
    tauto

/-- C4 witness: filtering the sample database by `tags=2,4` (also used as
an ingredient filter) for user 10. -/
theorem recipe_list_filter_or_witness :
    strEmpty "2,4" = false ∧ params_to_ints "2,4" = Except.ok [2, 4] ∧
    (∃ L, recipe_get_queryset sampleDb 10 (some "2,4") none = Except.ok L ∧
      (∀ x, x ∈ L ↔ x ∈ sampleDb.recipes ∧ x.user = 10 ∧
        ∃ tid ∈ x.tags, ([2, 4] : List Int).contains (Int.ofNat tid) = true) ∧
      L.Nodup) ∧
    (∃ L, recipe_get_queryset sampleDb 10 none (some "2,4") = Except.ok L ∧
      (∀ x, x ∈ L ↔ x ∈ sampleDb.recipes ∧ x.user = 10 ∧
        ∃ iid ∈ x.ingredients, ([2, 4] : List Int).contains (Int.ofNat iid) = true) ∧
      L.Nodup) := by
  have h := recipe_list_filter_or sampleDb 10 "2,4" [2, 4] (by decide) (by rfl)
  exact ⟨by decide, by rfl, h.1, h.2⟩

/-! ### C10 — malformed filter tokens raise; empty ones are ignored -/

/-- C10: a non-empty `tags` (or `ingredients`) parameter holding a token
`int()` rejects makes the request surface an uncaught exception rather
than a field-level 400, while a parameter that is the empty string is
treated exactly like an absent one and the caller's full recipe list
comes back unfiltered. -/
theorem bad_filter_token_uncaught (db : Db) (u : Nat) (s : String)
    (tok : List Char) (hs : strEmpty s = false)
    (htok : tok ∈ splitOnComma s.toList) (hbad : pyIntOk tok = false) :
    (∃ e, recipe_list_endpoint db u (some s) none = .serverError e) ∧
    (∃ e, recipe_list_endpoint db u none (some s) = .serverError e) ∧
    recipe_list_endpoint db u (some "") none = recipe_list_endpoint db u none none ∧
    (∃ L, recipe_list_endpoint db u (some "") none = .ok L ∧
      ∀ x, x ∈ L ↔ x ∈ db.recipes ∧ x.user = u) := by
  have herr : ∃ e, params_to_ints s = .error e := by
    have hgo : ∀ l : List (List Char), tok ∈ l →
        ∃ e, params_to_ints.go l = .error e := by
      intro l
      induction l with
      | nil => intro h; cases h
      | cons a l ih =>
        intro hmem
        cases hpa : pyInt a with
        | error e => exact ⟨e, by simp [params_to_ints.go, hpa]⟩
        | ok v =>
          rcases List.mem_cons.mp hmem with rfl | hmem'
          · exact absurd hbad (by simp [pyIntOk, hpa])
          · obtain ⟨e, he⟩ := ih hmem'
            exact ⟨e, by simp [params_to_ints.go, hpa, he]⟩
    exact hgo _ htok
  obtain ⟨e, he⟩ := herr
  refine ⟨⟨e, ?_⟩, ⟨e, ?_⟩, rfl, ?_⟩
  · simp [recipe_list_endpoint, recipe_get_queryset_tags_error db u s e hs he]
  · simp [recipe_list_endpoint, recipe_get_queryset_ing_error db u s e hs he]
  · refine ⟨order_recipes_desc_id ((db.recipes.filter fun r => r.user == u).dedup),
      ?_, fun x => mem_recipe_queryset_none db u x⟩
    rfl

/-- C10 witness: `tags=abc` on the sample database raises; `tags=` (empty)
behaves like no filter. -/
theorem bad_filter_token_uncaught_witness :
    strEmpty "abc" = false ∧
    ['a', 'b', 'c'] ∈ splitOnComma "abc".toList ∧
    pyIntOk ['a', 'b', 'c'] = false ∧
    (∃ e, recipe_list_endpoint sampleDb 10 (some "abc") none = .serverError e) ∧
    (∃ e, recipe_list_endpoint sampleDb 10 none (some "abc") = .serverError e) ∧
    recipe_list_endpoint sampleDb 10 (some "") none
      = recipe_list_endpoint sampleDb 10 none none ∧
    (∃ L, recipe_list_endpoint sampleDb 10 (some "") none = .ok L ∧
      ∀ x, x ∈ L ↔ x ∈ sampleDb.recipes ∧ x.user = 10) := by
  have h := bad_filter_token_uncaught sampleDb 10 "abc" ['a', 'b', 'c']
    (by decide) (by decide) (by decide)
  exact ⟨by decide, by decide, by decide, h.1, h.2.1, h.2.2.1, h.2.2.2⟩

/-! ### C9 — image upload validation and path generation -/

/-- C9: on a caller-owned recipe, a missing or non-image payload is
rejected with 400 and the stored image reference is untouched, while a
valid image is stored under `uploads/recipe/` at the random identifier
plus the original file's extension and that reference is saved and
returned. -/
theorem upload_image_checks (db : Db) (u pk : Nat) (uuidHex : String)
    (r0 : Recipe) (hr : recipe_get_object db u pk = some r0) :
    (∀ pl : UploadPayload, pl.isImage = false →
      upload_image_request db u pk (some pl) uuidHex = (UploadResult.badRequest, db) ∧
      recipeImage (upload_image_request db u pk (some pl) uuidHex).2 pk
        = recipeImage db pk) ∧
    upload_image_request db u pk none uuidHex = (UploadResult.badRequest, db) ∧
    (∀ pl : UploadPayload, pl.isImage = true →
      (upload_image_request db u pk (some pl) uuidHex).1
        = UploadResult.ok pk (recipe_image_file_path uuidHex pl.filename) ∧
      recipeImage (upload_image_request db u pk (some pl) uuidHex).2 pk
        = some (some (recipe_image_file_path uuidHex pl.filename)) ∧
      recipe_image_file_path uuidHex pl.filename
        = "uploads/recipe/" ++ (uuidHex ++ splitext_ext pl.filename)) := by
  have hspec := recipe_get_object_spec db u pk r0 hr
  refine ⟨?_, ?_, ?_⟩
  · intro pl hpl
    constructor <;> simp [upload_image_request, hr, hpl]
  · simp [upload_image_request, hr]
  · intro pl hpl
    have hg : ∀ r : Recipe,
        ((if r.id == r0.id then
            { r with image := some (recipe_image_file_path uuidHex pl.filename) }
          else r) : Recipe).id = r.id := by
      intro r
      by_cases h : (r.id == r0.id) = true <;> simp [h]
    have hfind : ∃ x, db.recipes.find? (fun r => r.id == pk) = some x := by
      cases hf : db.recipes.find? (fun r => r.id == pk) with
      | some x => exact ⟨x, rfl⟩
      | none =>
        exact absurd (show (r0.id == pk) = true by simp [hspec.2.2])
          (List.find?_eq_none.mp hf r0 hspec.1)
    obtain ⟨x, hx⟩ := hfind
    have hxid : (x.id == r0.id) = true := by
      have h1 : x.id = pk := by simpa using List.find?_some hx
      simp [h1, hspec.2.2]
    refine ⟨by simp [upload_image_request, hr, hpl, hspec.2.2], ?_, rfl⟩
    simp only [upload_image_request, hr, hpl, if_true, recipeImage]
    rw [find?_id_map _ hg db.recipes pk, hx]
    have hxid' : x.id = r0.id := by simpa using hxid
    simp [hxid']

/-- C9 witness: recipe 1 of user 10 in the sample database — `notes.txt`
flagged as a non-image is rejected without touching the row, `photo.png`
is stored at `uploads/recipe/<uuid>.png`. -/
theorem upload_image_checks_witness :
    recipe_get_object sampleDb 10 1 = some sampleR1 ∧
    upload_image_request sampleDb 10 1 (some ⟨"notes.txt", false⟩) "uuid4"
      = (UploadResult.badRequest, sampleDb) ∧
    recipeImage (upload_image_request sampleDb 10 1
        (some ⟨"notes.txt", false⟩) "uuid4").2 1 = recipeImage sampleDb 1 ∧
    (upload_image_request sampleDb 10 1 (some ⟨"photo.png", true⟩) "uuid4").1
      = UploadResult.ok 1 (recipe_image_file_path "uuid4" "photo.png") ∧
    recipeImage (upload_image_request sampleDb 10 1
        (some ⟨"photo.png", true⟩) "uuid4").2 1
      = some (some (recipe_image_file_path "uuid4" "photo.png")) ∧
    recipe_image_file_path "uuid4" "photo.png" = "uploads/recipe/uuid4.png" := by
  have h := upload_image_checks sampleDb 10 1 "uuid4" sampleR1 (by rfl)
  have hbad := h.1 ⟨"notes.txt", false⟩ (by rfl)
  have hgood := h.2.2 ⟨"photo.png", true⟩ (by rfl)
  exact ⟨by rfl, hbad.1, hbad.2, hgood.1, hgood.2.1, by rfl⟩

/-! ### C5 machinery: frame lemmas for the update pipeline -/

theorem recipeTags_of_map (g : Recipe → Recipe) (hid : ∀ r, (g r).id = r.id)
    (htags : ∀ r, (g r).tags = r.tags) (db : Db) (rid : Nat) :
    recipeTags { db with recipes := db.recipes.map g } rid = recipeTags db rid := by
  unfold recipeTags
  show ((db.recipes.map g).find? (fun r => r.id == rid)).map (·.tags)
    = (db.recipes.find? (fun r => r.id == rid)).map (·.tags)
  rw [find?_id_map g hid]
  cases db.recipes.find? (fun r => r.id == rid) <;> simp [htags]

theorem recipeIngredients_of_map (g : Recipe → Recipe) (hid : ∀ r, (g r).id = r.id)
    (hing : ∀ r, (g r).ingredients = r.ingredients) (db : Db) (rid : Nat) :
    recipeIngredients { db with recipes := db.recipes.map g } rid
      = recipeIngredients db rid := by
  unfold recipeIngredients
  show ((db.recipes.map g).find? (fun r => r.id == rid)).map (·.ingredients)
    = (db.recipes.find? (fun r => r.id == rid)).map (·.ingredients)
  rw [find?_id_map g hid]
  cases db.recipes.find? (fun r => r.id == rid) <;> simp [hing]

theorem recipeTags_clear_self (db : Db) (rid : Nat) :
    recipeTags (clearRecipeTags db rid) rid
      = (recipeTags db rid).map fun _ => ([] : List Nat) := by
  unfold recipeTags clearRecipeTags
  rw [find?_id_map _ (fun r => by by_cases h : (r.id == rid) = true <;> simp [h])]
  cases hf : db.recipes.find? (fun r => r.id == rid) with
  | none => rfl
  | some x =>
    have hx : x.id = rid := by simpa using List.find?_some hf
    simp [hx]

theorem recipeIngredients_clear_self (db : Db) (rid : Nat) :
    recipeIngredients (clearRecipeIngredients db rid) rid
      = (recipeIngredients db rid).map fun _ => ([] : List Nat) := by
  unfold recipeIngredients clearRecipeIngredients
  rw [find?_id_map _ (fun r => by by_cases h : (r.id == rid) = true <;> simp [h])]
  cases hf : db.recipes.find? (fun r => r.id == rid) with
  | none => rfl
  | some x =>
    have hx : x.id = rid := by simpa using List.find?_some hf
    simp [hx]

theorem recipeTags_addTag_self (db : Db) (rid tid : Nat) :
    recipeTags (addTagToRecipe db rid tid) rid
      = (recipeTags db rid).map fun tl => if tl.contains tid then tl else tl ++ [tid] := by
  unfold recipeTags addTagToRecipe
  rw [find?_id_map _ (fun r => by
    by_cases h : (r.id == rid) = true <;> simp [h] <;> split <;> rfl)]
  cases hf : db.recipes.find? (fun r => r.id == rid) with
  | none => rfl
  | some x =>
    have hx : x.id = rid := by simpa using List.find?_some hf
    by_cases hc : tid ∈ x.tags <;> simp [hx, hc]

theorem recipeIngredients_addIng_self (db : Db) (rid iid : Nat) :
    recipeIngredients (addIngredientToRecipe db rid iid) rid
      = (recipeIngredients db rid).map
          fun il => if il.contains iid then il else il ++ [iid] := by
  unfold recipeIngredients addIngredientToRecipe
  rw [find?_id_map _ (fun r => by
    by_cases h : (r.id == rid) = true <;> simp [h] <;> split <;> rfl)]
  cases hf : db.recipes.find? (fun r => r.id == rid) with
  | none => rfl
  | some x =>
    have hx : x.id = rid := by simpa using List.find?_some hf
    by_cases hc : iid ∈ x.ingredients <;> simp [hx, hc]

theorem recipeTags_addIng (db : Db) (rid' iid rid : Nat) :
    recipeTags (addIngredientToRecipe db rid' iid) rid = recipeTags db rid :=
  recipeTags_of_map _
    (fun r => by
      by_cases h : (r.id == rid') = true <;> simp [h] <;> split <;> rfl)
    (fun r => by
      by_cases h : (r.id == rid') = true <;> simp [h] <;> split <;> rfl)
    db rid

theorem recipeIngredients_addTag (db : Db) (rid' tid rid : Nat) :
    recipeIngredients (addTagToRecipe db rid' tid) rid = recipeIngredients db rid :=
  recipeIngredients_of_map _
    (fun r => by
      by_cases h : (r.id == rid') = true <;> simp [h] <;> split <;> rfl)
    (fun r => by
      by_cases h : (r.id == rid') = true <;> simp [h] <;> split <;> rfl)
    db rid

theorem recipeTags_clearIng (db : Db) (rid' rid : Nat) :
    recipeTags (clearRecipeIngredients db rid') rid = recipeTags db rid :=
  recipeTags_of_map _
    (fun r => by by_cases h : (r.id == rid') = true <;> simp [h])
    (fun r => by by_cases h : (r.id == rid') = true <;> simp [h])
    db rid

theorem recipeIngredients_clearTags (db : Db) (rid' rid : Nat) :
    recipeIngredients (clearRecipeTags db rid') rid = recipeIngredients db rid :=
  recipeIngredients_of_map _
    (fun r => by by_cases h : (r.id == rid') = true <;> simp [h])
    (fun r => by by_cases h : (r.id == rid') = true <;> simp [h])
    db rid

theorem recipeTags_scalar (db : Db) (rid' : Nat) (p : RecipeUpdatePayload) (rid : Nat) :
    recipeTags (applyScalarUpdates db rid' p) rid = recipeTags db rid :=
  recipeTags_of_map _
    (fun r => by by_cases h : (r.id == rid') = true <;> simp [h])
    (fun r => by by_cases h : (r.id == rid') = true <;> simp [h])
    db rid

theorem recipeIngredients_scalar (db : Db) (rid' : Nat) (p : RecipeUpdatePayload)
    (rid : Nat) :
    recipeIngredients (applyScalarUpdates db rid' p) rid = recipeIngredients db rid :=
  recipeIngredients_of_map _
    (fun r => by by_cases h : (r.id == rid') = true <;> simp [h])
    (fun r => by by_cases h : (r.id == rid') = true <;> simp [h])
    db rid

theorem recipeTags_tag_goc (db : Db) (u : Nat) (n : String) (rid : Nat) :
    recipeTags (tag_get_or_create db u n).2 rid = recipeTags db rid := by
  unfold tag_get_or_create
  cases hf : db.tags.find? (fun t => t.user == u && t.name == n) <;> rfl

theorem recipeIngredients_ing_goc (db : Db) (u : Nat) (n : String) (rid : Nat) :
    recipeIngredients (ingredient_get_or_create db u n).2 rid
      = recipeIngredients db rid := by
  unfold ingredient_get_or_create
  cases hf : db.ingredients.find? (fun i => i.user == u && i.name == n) <;> rfl

theorem recipeIngredients_tag_goc (db : Db) (u : Nat) (n : String) (rid : Nat) :
    recipeIngredients (tag_get_or_create db u n).2 rid = recipeIngredients db rid := by
  unfold tag_get_or_create
  cases hf : db.tags.find? (fun t => t.user == u && t.name == n) <;> rfl

theorem recipeTags_ing_goc (db : Db) (u : Nat) (n : String) (rid : Nat) :
    recipeTags (ingredient_get_or_create db u n).2 rid = recipeTags db rid := by
  unfold ingredient_get_or_create
  cases hf : db.ingredients.find? (fun i => i.user == u && i.name == n) <;> rfl

theorem tags_table_tag_goc_mono (db : Db) (u : Nat) (n : String) (t : Tag)
    (h : t ∈ db.tags) : t ∈ (tag_get_or_create db u n).2.tags := by
  unfold tag_get_or_create
  cases hf : db.tags.find? (fun x => x.user == u && x.name == n) with
  | some _ => exact h
  | none => exact List.mem_append_left _ h

theorem ing_table_ing_goc_mono (db : Db) (u : Nat) (n : String) (i : Ingredient)
    (h : i ∈ db.ingredients) : i ∈ (ingredient_get_or_create db u n).2.ingredients := by
  unfold ingredient_get_or_create
  cases hf : db.ingredients.find? (fun x => x.user == u && x.name == n) with
  | some _ => exact h
  | none => exact List.mem_append_left _ h

theorem ing_table_tag_goc (db : Db) (u : Nat) (n : String) :
    (tag_get_or_create db u n).2.ingredients = db.ingredients := by
  unfold tag_get_or_create
  cases hf : db.tags.find? (fun t => t.user == u && t.name == n) <;> rfl

theorem tags_table_ing_goc (db : Db) (u : Nat) (n : String) :
    (ingredient_get_or_create db u n).2.tags = db.tags := by
  unfold ingredient_get_or_create
  cases hf : db.ingredients.find? (fun i => i.user == u && i.name == n) <;> rfl

/-- The returned entity of a tag get-or-create is stored and carries the
requested owner and name. -/
theorem tag_goc_spec (db : Db) (u : Nat) (n : String) :
    (tag_get_or_create db u n).1 ∈ (tag_get_or_create db u n).2.tags ∧
    (tag_get_or_create db u n).1.user = u ∧ (tag_get_or_create db u n).1.name = n := by
  unfold tag_get_or_create
  cases hf : db.tags.find? (fun t => t.user == u && t.name == n) with
  | some t =>
    have hp := List.find?_some hf
    simp only [Bool.and_eq_true, beq_iff_eq] at hp
    exact ⟨List.mem_of_find?_eq_some hf, hp.1, hp.2⟩
  | none =>
    refine ⟨List.mem_append_right _ (List.mem_singleton_self _), rfl, rfl⟩

/-- The returned entity of an ingredient get-or-create is stored and
carries the requested owner and name. -/
theorem ing_goc_spec (db : Db) (u : Nat) (n : String) :
    (ingredient_get_or_create db u n).1 ∈ (ingredient_get_or_create db u n).2.ingredients ∧
    (ingredient_get_or_create db u n).1.user = u ∧
    (ingredient_get_or_create db u n).1.name = n := by
  unfold ingredient_get_or_create
  cases hf : db.ingredients.find? (fun i => i.user == u && i.name == n) with
  | some i =>
    have hp := List.find?_some hf
    simp only [Bool.and_eq_true, beq_iff_eq] at hp
    exact ⟨List.mem_of_find?_eq_some hf, hp.1, hp.2⟩
  | none =>
    refine ⟨List.mem_append_right _ (List.mem_singleton_self _), rfl, rfl⟩

/-! ### C5 machinery: behaviour of the resolve-and-attach loops -/

theorem tags_table_create_mono : ∀ (ts : List TagPayload) (db : Db) (u rid : Nat)
    (t : Tag), t ∈ db.tags → t ∈ (create_or_update_tags db u rid ts).tags := by
  intro ts
  induction ts with
  | nil => intro db _ _ t h; exact h
  | cons tp rest ih =>
    intro db u rid t h
    simp only [create_or_update_tags]
    exact ih _ u rid t (tags_table_tag_goc_mono db u tp.name t h)

theorem ing_table_create_ing_mono : ∀ (ips : List IngredientPayload) (db : Db)
    (u rid : Nat) (i : Ingredient),
    i ∈ db.ingredients → i ∈ (get_or_create_ingredients db u rid ips).ingredients := by
  intro ips
  induction ips with
  | nil => intro db _ _ i h; exact h
  | cons ip rest ih =>
    intro db u rid i h
    simp only [get_or_create_ingredients]
    exact ih _ u rid i (ing_table_ing_goc_mono db u ip.name i h)

theorem ing_table_create_tags_eq : ∀ (ts : List TagPayload) (db : Db) (u rid : Nat),
    (create_or_update_tags db u rid ts).ingredients = db.ingredients := by
  intro ts
  induction ts with
  | nil => intro db _ _; rfl
  | cons tp rest ih =>
    intro db u rid
    simp only [create_or_update_tags]
    rw [ih]
    exact ing_table_tag_goc db u tp.name

theorem tags_table_create_ing_eq : ∀ (ips : List IngredientPayload) (db : Db)
    (u rid : Nat), (get_or_create_ingredients db u rid ips).tags = db.tags := by
  intro ips
  induction ips with
  | nil => intro db _ _; rfl
  | cons ip rest ih =>
    intro db u rid
    simp only [get_or_create_ingredients]
    rw [ih]
    exact tags_table_ing_goc db u ip.name

theorem recipeTags_create_ing : ∀ (ips : List IngredientPayload) (db : Db)
    (u rid' rid : Nat),
    recipeTags (get_or_create_ingredients db u rid' ips) rid = recipeTags db rid := by
  intro ips
  induction ips with
  | nil => intro db _ _ _; rfl
  | cons ip rest ih =>
    intro db u rid' rid
    simp only [get_or_create_ingredients]
    rw [ih, recipeTags_addIng, recipeTags_ing_goc]

theorem recipeIngredients_create_tags : ∀ (ts : List TagPayload) (db : Db)
    (u rid' rid : Nat),
    recipeIngredients (create_or_update_tags db u rid' ts) rid
      = recipeIngredients db rid := by
  intro ts
  induction ts with
  | nil => intro db _ _ _; rfl
  | cons tp rest ih =>
    intro db u rid' rid
    simp only [create_or_update_tags]
    rw [ih, recipeIngredients_addTag, recipeIngredients_tag_goc]

theorem create_tags_keeps : ∀ (ts : List TagPayload) (db : Db) (u rid : Nat)
    (tl : List Nat), recipeTags db rid = some tl →
    ∃ tl', recipeTags (create_or_update_tags db u rid ts) rid = some tl' ∧
      ∀ tid ∈ tl, tid ∈ tl' := by
  intro ts
  induction ts with
  | nil => intro db _ rid tl h; exact ⟨tl, h, fun _ ht => ht⟩
  | cons tp rest ih =>
    intro db u rid tl h
    simp only [create_or_update_tags]
    have h1 : recipeTags (tag_get_or_create db u tp.name).2 rid = some tl := by
      rw [recipeTags_tag_goc]; exact h
    have h2 : recipeTags (addTagToRecipe (tag_get_or_create db u tp.name).2 rid
        (tag_get_or_create db u tp.name).1.id) rid
        = some (if tl.contains (tag_get_or_create db u tp.name).1.id then tl
                else tl ++ [(tag_get_or_create db u tp.name).1.id]) := by
      rw [recipeTags_addTag_self, h1]; rfl
    obtain ⟨tl', h', hsub⟩ := ih _ u rid _ h2
    refine ⟨tl', h', fun tid htid => hsub tid ?_⟩
    split
    · exact htid
    · exact List.mem_append_left _ htid

theorem create_ing_keeps : ∀ (ips : List IngredientPayload) (db : Db) (u rid : Nat)
    (il : List Nat), recipeIngredients db rid = some il →
    ∃ il', recipeIngredients (get_or_create_ingredients db u rid ips) rid = some il' ∧
      ∀ iid ∈ il, iid ∈ il' := by
  intro ips
  induction ips with
  | nil => intro db _ rid il h; exact ⟨il, h, fun _ ht => ht⟩
  | cons ip rest ih =>
    intro db u rid il h
    simp only [get_or_create_ingredients]
    have h1 : recipeIngredients (ingredient_get_or_create db u ip.name).2 rid
        = some il := by
      rw [recipeIngredients_ing_goc]; exact h
    have h2 : recipeIngredients (addIngredientToRecipe
        (ingredient_get_or_create db u ip.name).2 rid
        (ingredient_get_or_create db u ip.name).1.id) rid
        = some (if il.contains (ingredient_get_or_create db u ip.name).1.id then il
                else il ++ [(ingredient_get_or_create db u ip.name).1.id]) := by
      rw [recipeIngredients_addIng_self, h1]; rfl
    obtain ⟨il', h', hsub⟩ := ih _ u rid _ h2
    refine ⟨il', h', fun iid hiid => hsub iid ?_⟩
    split
    · exact hiid
    · exact List.mem_append_left _ hiid

/-- Every id attached after a resolve-and-attach loop either was already
on the row or traces to one of the payload names, resolved for the
authenticated user. -/
theorem create_tags_attach : ∀ (ts : List TagPayload) (db : Db) (u rid : Nat)
    (tl' : List Nat),
    recipeTags (create_or_update_tags db u rid ts) rid = some tl' →
    ∀ tid ∈ tl',
      (∃ tl, recipeTags db rid = some tl ∧ tid ∈ tl) ∨
      (∃ tp ∈ ts, ∃ t ∈ (create_or_update_tags db u rid ts).tags,
        t.id = tid ∧ t.user = u ∧ t.name = tp.name) := by
  intro ts
  induction ts with
  | nil =>
    intro db _ rid tl' h tid htid
    left; exact ⟨tl', h, htid⟩
  | cons tp rest ih =>
    intro db u rid tl' h tid htid
    simp only [create_or_update_tags] at h ⊢
    rcases ih _ u rid tl' h tid htid with ⟨tlmid, hmid, htmid⟩ | ⟨tp', htp', t, ht, hprops⟩
    · rw [recipeTags_addTag_self] at hmid
      cases hf : recipeTags (tag_get_or_create db u tp.name).2 rid with
      | none => rw [hf] at hmid; cases hmid
      | some tl0 =>
        rw [hf] at hmid
        have hf0 : recipeTags db rid = some tl0 := by
          rw [← recipeTags_tag_goc db u tp.name rid]; exact hf
        have hmid' : (if tl0.contains (tag_get_or_create db u tp.name).1.id then tl0
            else tl0 ++ [(tag_get_or_create db u tp.name).1.id]) = tlmid := by
          simpa using hmid
        rw [← hmid'] at htmid
        split at htmid
        · left; exact ⟨tl0, hf0, htmid⟩
        · rcases List.mem_append.mp htmid with h1 | h1
          · left; exact ⟨tl0, hf0, h1⟩
          · have hid : (tag_get_or_create db u tp.name).1.id = tid := by
              have := List.mem_singleton.mp h1
              exact this.symm
            right
            exact ⟨tp, List.mem_cons_self _ _, (tag_get_or_create db u tp.name).1,
              tags_table_create_mono rest _ u rid _ (tag_goc_spec db u tp.name).1,
              hid, (tag_goc_spec db u tp.name).2.1, (tag_goc_spec db u tp.name).2.2⟩
    · right
      exact ⟨tp', List.mem_cons_of_mem _ htp', t, ht, hprops⟩

/-- Ingredient version of `create_tags_attach`. -/
theorem create_ing_attach : ∀ (ips : List IngredientPayload) (db : Db) (u rid : Nat)
    (il' : List Nat),
    recipeIngredients (get_or_create_ingredients db u rid ips) rid = some il' →
    ∀ iid ∈ il',
      (∃ il, recipeIngredients db rid = some il ∧ iid ∈ il) ∨
      (∃ ip ∈ ips, ∃ i ∈ (get_or_create_ingredients db u rid ips).ingredients,
        i.id = iid ∧ i.user = u ∧ i.name = ip.name) := by
  intro ips
  induction ips with
  | nil =>
    intro db _ rid il' h iid hiid
    left; exact ⟨il', h, hiid⟩
  | cons ip rest ih =>
    intro db u rid il' h iid hiid
    simp only [get_or_create_ingredients] at h ⊢
    rcases ih _ u rid il' h iid hiid with ⟨ilmid, hmid, himid⟩ | ⟨ip', hip', i, hi, hprops⟩
    · rw [recipeIngredients_addIng_self] at hmid
      cases hf : recipeIngredients (ingredient_get_or_create db u ip.name).2 rid with
      | none => rw [hf] at hmid; cases hmid
      | some il0 =>
        rw [hf] at hmid
        have hf0 : recipeIngredients db rid = some il0 := by
          rw [← recipeIngredients_ing_goc db u ip.name rid]; exact hf
        have hmid' : (if il0.contains (ingredient_get_or_create db u ip.name).1.id then il0
            else il0 ++ [(ingredient_get_or_create db u ip.name).1.id]) = ilmid := by
          simpa using hmid
        rw [← hmid'] at himid
        split at himid
        · left; exact ⟨il0, hf0, himid⟩
        · rcases List.mem_append.mp himid with h1 | h1
          · left; exact ⟨il0, hf0, h1⟩
          · have hid : (ingredient_get_or_create db u ip.name).1.id = iid := by
              have := List.mem_singleton.mp h1
              exact this.symm
            right
            exact ⟨ip, List.mem_cons_self _ _, (ingredient_get_or_create db u ip.name).1,
              ing_table_create_ing_mono rest _ u rid _ (ing_goc_spec db u ip.name).1,
              hid, (ing_goc_spec db u ip.name).2.1, (ing_goc_spec db u ip.name).2.2⟩
    · right
      exact ⟨ip', List.mem_cons_of_mem _ hip', i, hi, hprops⟩

/-- Every payload name of a resolve-and-attach loop ends up attached to
the row through a stored tag carrying that owner and name. -/
theorem create_tags_covers : ∀ (ts : List TagPayload) (db : Db) (u rid : Nat)
    (tl : List Nat), recipeTags db rid = some tl →
    ∀ tp ∈ ts, ∃ tl', recipeTags (create_or_update_tags db u rid ts) rid = some tl' ∧
      ∃ tid ∈ tl', ∃ t ∈ (create_or_update_tags db u rid ts).tags,
        t.id = tid ∧ t.user = u ∧ t.name = tp.name := by
  intro ts
  induction ts with
  | nil => intro db _ rid tl _ tp htp; cases htp
  | cons tp0 rest ih =>
    intro db u rid tl h tp htp
    simp only [create_or_update_tags]
    have h1 : recipeTags (tag_get_or_create db u tp0.name).2 rid = some tl := by
      rw [recipeTags_tag_goc]; exact h
    have h2 : recipeTags (addTagToRecipe (tag_get_or_create db u tp0.name).2 rid
        (tag_get_or_create db u tp0.name).1.id) rid
        = some (if tl.contains (tag_get_or_create db u tp0.name).1.id then tl
                else tl ++ [(tag_get_or_create db u tp0.name).1.id]) := by
      rw [recipeTags_addTag_self, h1]; rfl
    rcases List.mem_cons.mp htp with rfl | htp'
    · obtain ⟨tl', h', hsub⟩ := create_tags_keeps rest _ u rid _ h2
      refine ⟨tl', h', (tag_get_or_create db u tp.name).1.id, hsub _ ?_,
        (tag_get_or_create db u tp.name).1,
        tags_table_create_mono rest _ u rid _ (tag_goc_spec db u tp.name).1,
        rfl, (tag_goc_spec db u tp.name).2.1, (tag_goc_spec db u tp.name).2.2⟩
      split
      · next hc => simpa using hc
      · exact List.mem_append_right _ (List.mem_singleton_self _)
    · exact ih _ u rid _ h2 tp htp'

/-- Ingredient version of `create_tags_covers`. -/
theorem create_ing_covers : ∀ (ips : List IngredientPayload) (db : Db) (u rid : Nat)
    (il : List Nat), recipeIngredients db rid = some il →
    ∀ ip ∈ ips, ∃ il',
      recipeIngredients (get_or_create_ingredients db u rid ips) rid = some il' ∧
      ∃ iid ∈ il', ∃ i ∈ (get_or_create_ingredients db u rid ips).ingredients,
        i.id = iid ∧ i.user = u ∧ i.name = ip.name := by
  intro ips
  induction ips with
  | nil => intro db _ rid il _ ip hip; cases hip
  | cons ip0 rest ih =>
    intro db u rid il h ip hip
    simp only [get_or_create_ingredients]
    have h1 : recipeIngredients (ingredient_get_or_create db u ip0.name).2 rid
        = some il := by
      rw [recipeIngredients_ing_goc]; exact h
    have h2 : recipeIngredients (addIngredientToRecipe
        (ingredient_get_or_create db u ip0.name).2 rid
        (ingredient_get_or_create db u ip0.name).1.id) rid
        = some (if il.contains (ingredient_get_or_create db u ip0.name).1.id then il
                else il ++ [(ingredient_get_or_create db u ip0.name).1.id]) := by
      rw [recipeIngredients_addIng_self, h1]; rfl
    rcases List.mem_cons.mp hip with rfl | hip'
    · obtain ⟨il', h', hsub⟩ := create_ing_keeps rest _ u rid _ h2
      refine ⟨il', h', (ingredient_get_or_create db u ip.name).1.id, hsub _ ?_,
        (ingredient_get_or_create db u ip.name).1,
        ing_table_create_ing_mono rest _ u rid _ (ing_goc_spec db u ip.name).1,
        rfl, (ing_goc_spec db u ip.name).2.1, (ing_goc_spec db u ip.name).2.2⟩
      split
      · next hc => simpa using hc
      · exact List.mem_append_right _ (List.mem_singleton_self _)
    · exact ih _ u rid _ h2 ip hip'

/-! ### C5 — update fully replaces present association keys, leaves absent ones -/

/-- C5: a valid update on a caller-owned recipe: a present `tags` key
(even `some []`) replaces the recipe's tag set — every remaining
attachment traces to a payload name, every payload name is attached, an
empty list clears the set — while no stored `Tag` row is ever deleted; an
absent key leaves the association list exactly as it was; and the same
holds for `ingredients`. -/
theorem update_replaces_associations (db : Db) (u pk : Nat)
    (p : RecipeUpdatePayload) (r0 : Recipe)
    (hr : recipe_get_object db u pk = some r0)
    (hv : recipeUpdatePayloadValid p = true) :
    ∃ db', recipe_update_request db u pk p = (HttpOutcome.ok, db') ∧
      (∀ t ∈ db.tags, t ∈ db'.tags) ∧
      (∀ i ∈ db.ingredients, i ∈ db'.ingredients) ∧
      (∃ tl', recipeTags db' pk = some tl' ∧
        (p.tags = none → recipeTags db pk = some tl') ∧
        (∀ ts, p.tags = some ts →
          (∀ tid ∈ tl', ∃ tp ∈ ts, ∃ t ∈ db'.tags,
            t.id = tid ∧ t.user = u ∧ t.name = tp.name) ∧
          (∀ tp ∈ ts, ∃ tid ∈ tl', ∃ t ∈ db'.tags,
            t.id = tid ∧ t.user = u ∧ t.name = tp.name) ∧
          (ts = [] → tl' = []))) ∧
      (∃ il', recipeIngredients db' pk = some il' ∧
        (p.ingredients = none → recipeIngredients db pk = some il') ∧
        (∀ ips, p.ingredients = some ips →
          (∀ iid ∈ il', ∃ ip ∈ ips, ∃ i ∈ db'.ingredients,
            i.id = iid ∧ i.user = u ∧ i.name = ip.name) ∧
          (∀ ip ∈ ips, ∃ iid ∈ il', ∃ i ∈ db'.ingredients,
            i.id = iid ∧ i.user = u ∧ i.name = ip.name) ∧
          (ips = [] → il' = []))) := by
  have hspec := recipe_get_object_spec db u pk r0 hr
  obtain ⟨x0, hx0⟩ : ∃ x, db.recipes.find? (fun r => r.id == pk) = some x := by
    cases hf : db.recipes.find? (fun r => r.id == pk) with
    | some x => exact ⟨x, rfl⟩
    | none =>
      exact absurd (show (r0.id == pk) = true by simp [hspec.2.2])
        (List.find?_eq_none.mp hf r0 hspec.1)
  have hT0 : recipeTags db pk = some x0.tags := by
    unfold recipeTags
    rw [hx0]
    rfl
  have hI0 : recipeIngredients db pk = some x0.ingredients := by
    unfold recipeIngredients
    rw [hx0]
    rfl
  set db1 := (match p.tags with
    | none => db
    | some ts => create_or_update_tags (clearRecipeTags db pk) u pk ts) with hdb1
  set db2 := (match p.ingredients with
    | none => db1
    | some ips => get_or_create_ingredients (clearRecipeIngredients db1 pk) u pk ips)
    with hdb2
  have hser : serializer_update db u pk p = applyScalarUpdates db2 pk p := rfl
  have hreq : recipe_update_request db u pk p
      = (HttpOutcome.ok, applyScalarUpdates db2 pk p) := by
    have hre : serializer_update db u r0.id p = applyScalarUpdates db2 pk p := by
      rw [hspec.2.2]
      exact hser
    simp [recipe_update_request, hr, hv, hre]
  -- phase 1: the tag branch
  have h1tags_mono : ∀ t ∈ db.tags, t ∈ db1.tags := by
    intro t ht
    rw [hdb1]
    cases hpt : p.tags with
    | none => exact ht
    | some ts => exact tags_table_create_mono ts _ u pk t ht
  have h1ing_tab : db1.ingredients = db.ingredients := by
    rw [hdb1]
    cases hpt : p.tags with
    | none => rfl
    | some ts => exact ing_table_create_tags_eq ts _ u pk
  have h1I : recipeIngredients db1 pk = recipeIngredients db pk := by
    rw [hdb1]
    cases hpt : p.tags with
    | none => rfl
    | some ts => rw [recipeIngredients_create_tags, recipeIngredients_clearTags]
  -- phase 2: the ingredient branch
  have h2tags_tab : db2.tags = db1.tags := by
    rw [hdb2]
    cases hpi : p.ingredients with
    | none => rfl
    | some ips => exact tags_table_create_ing_eq ips _ u pk
  have h2ing_mono : ∀ i ∈ db1.ingredients, i ∈ db2.ingredients := by
    intro i hi
    rw [hdb2]
    cases hpi : p.ingredients with
    | none => exact hi
    | some ips => exact ing_table_create_ing_mono ips _ u pk i hi
  have h2T : recipeTags db2 pk = recipeTags db1 pk := by
    rw [hdb2]
    cases hpi : p.ingredients with
    | none => rfl
    | some ips => rw [recipeTags_create_ing, recipeTags_clearIng]
  have hfinT : recipeTags (applyScalarUpdates db2 pk p) pk = recipeTags db1 pk := by
    rw [recipeTags_scalar, h2T]
  have hfinI : recipeIngredients (applyScalarUpdates db2 pk p) pk
      = recipeIngredients db2 pk := recipeIngredients_scalar db2 pk p pk
  have hfin_tags_tab : (applyScalarUpdates db2 pk p).tags = db1.tags := h2tags_tab
  have hfin_ing_tab : (applyScalarUpdates db2 pk p).ingredients = db2.ingredients := rfl
  refine ⟨applyScalarUpdates db2 pk p, hreq, ?_, ?_, ?_, ?_⟩
  · intro t ht
    rw [hfin_tags_tab]
    exact h1tags_mono t ht
  · intro i hi
    rw [hfin_ing_tab]
    exact h2ing_mono i (h1ing_tab ▸ hi)
  · -- the tag association list of the updated row
    cases hpt : p.tags with
    | none =>
      refine ⟨x0.tags, ?_, fun _ => hT0, ?_⟩
      · rw [hfinT, hdb1]
        simp only [hpt]
        exact hT0
      · intro ts hts
        cases hts
    | some ts =>
      have hclear : recipeTags (clearRecipeTags db pk) pk = some [] := by
        rw [recipeTags_clear_self, hT0]
        rfl
      obtain ⟨tl1, h1, _⟩ := create_tags_keeps ts _ u pk [] hclear
      have hrow1 : recipeTags db1 pk = some tl1 := by
        rw [hdb1]
        simp only [hpt]
        exact h1
      refine ⟨tl1, by rw [hfinT]; exact hrow1, ?_, ?_⟩
      · intro h0
        cases h0
      · intro ts' hts'
        have hts : ts' = ts := (Option.some.inj hts').symm
        rw [hts]
        refine ⟨?_, ?_, ?_⟩
        · intro tid htid
          rcases create_tags_attach ts _ u pk tl1 h1 tid htid with
            ⟨tl, hcl, hmem⟩ | ⟨tp, htp, t, ht, hprops⟩
          · rw [hclear] at hcl
            cases Option.some.inj hcl
            cases hmem
          · refine ⟨tp, htp, t, ?_, hprops⟩
            rw [hfin_tags_tab, hdb1]
            simp only [hpt]
            exact ht
        · intro tp htp
          obtain ⟨tl'', h'', tid, htid, t, ht, hprops⟩ :=
            create_tags_covers ts _ u pk [] hclear tp htp
          have htl : tl'' = tl1 := Option.some.inj (h''.symm.trans h1)
          refine ⟨tid, htl ▸ htid, t, ?_, hprops⟩
          rw [hfin_tags_tab, hdb1]
          simp only [hpt]
          exact ht
        · intro h0
          subst h0
          have : recipeTags db1 pk = some [] := by
            rw [hdb1]
            simp only [hpt]
            exact hclear
          exact Option.some.inj (hrow1.symm.trans this)
  · -- the ingredient association list of the updated row
    cases hpi : p.ingredients with
    | none =>
      refine ⟨x0.ingredients, ?_, fun _ => hI0, ?_⟩
      · rw [hfinI, hdb2]
        simp only [hpi]
        rw [h1I]
        exact hI0
      · intro ips hips
        cases hips
    | some ips =>
      have hclear : recipeIngredients (clearRecipeIngredients db1 pk) pk = some [] := by
        rw [recipeIngredients_clear_self, h1I, hI0]
        rfl
      obtain ⟨il1, h1, _⟩ := create_ing_keeps ips _ u pk [] hclear
      have hrow2 : recipeIngredients db2 pk = some il1 := by
        rw [hdb2]
        simp only [hpi]
        exact h1
      refine ⟨il1, by rw [hfinI]; exact hrow2, ?_, ?_⟩
      · intro h0
        cases h0
      · intro ips' hips'
        have hips : ips' = ips := (Option.some.inj hips').symm
        rw [hips]
        refine ⟨?_, ?_, ?_⟩
        · intro iid hiid
          rcases create_ing_attach ips _ u pk il1 h1 iid hiid with
            ⟨il, hcl, hmem⟩ | ⟨ip, hip, i, hi, hprops⟩
          · rw [hclear] at hcl
            cases Option.some.inj hcl
            cases hmem
          · refine ⟨ip, hip, i, ?_, hprops⟩
            rw [hfin_ing_tab, hdb2]
            simp only [hpi]
            exact hi
        · intro ip hip
          obtain ⟨il'', h'', iid, hiid, i, hi, hprops⟩ :=
            create_ing_covers ips _ u pk [] hclear ip hip
          have hil : il'' = il1 := Option.some.inj (h''.symm.trans h1)
          refine ⟨iid, hil ▸ hiid, i, ?_, hprops⟩
          rw [hfin_ing_tab, hdb2]
          simp only [hpi]
          exact hi
        · intro h0
          subst h0
          have : recipeIngredients db2 pk = some [] := by
            rw [hdb2]
            simp only [hpi]
            exact hclear
          exact Option.some.inj (hrow2.symm.trans this)

/-- C5 witness: patching recipe 2 of user 10 with `{tags: []}` — the
update succeeds, both stored `Tag` rows survive, and the recipe's tag
list is cleared while its ingredient list is untouched. -/
theorem update_replaces_associations_witness :
    recipe_get_object sampleDb 10 2 = some sampleR2 ∧
    recipeUpdatePayloadValid clearTagsPayload = true ∧
    ∃ db', recipe_update_request sampleDb 10 2 clearTagsPayload
        = (HttpOutcome.ok, db') ∧
      (∀ t ∈ sampleDb.tags, t ∈ db'.tags) ∧
      (∀ i ∈ sampleDb.ingredients, i ∈ db'.ingredients) ∧
      (∃ tl', recipeTags db' 2 = some tl' ∧
        (clearTagsPayload.tags = none → recipeTags sampleDb 2 = some tl') ∧
        (∀ ts, clearTagsPayload.tags = some ts →
          (∀ tid ∈ tl', ∃ tp ∈ ts, ∃ t ∈ db'.tags,
            t.id = tid ∧ t.user = 10 ∧ t.name = tp.name) ∧
          (∀ tp ∈ ts, ∃ tid ∈ tl', ∃ t ∈ db'.tags,
            t.id = tid ∧ t.user = 10 ∧ t.name = tp.name) ∧
          (ts = [] → tl' = []))) ∧
      (∃ il', recipeIngredients db' 2 = some il' ∧
        (clearTagsPayload.ingredients = none → recipeIngredients sampleDb 2 = some il') ∧
        (∀ ips, clearTagsPayload.ingredients = some ips →
          (∀ iid ∈ il', ∃ ip ∈ ips, ∃ i ∈ db'.ingredients,
            i.id = iid ∧ i.user = 10 ∧ i.name = ip.name) ∧
          (∀ ip ∈ ips, ∃ iid ∈ il', ∃ i ∈ db'.ingredients,
            i.id = iid ∧ i.user = 10 ∧ i.name = ip.name) ∧
          (ips = [] → il' = []))) :=
  ⟨by rfl, by decide,
   update_replaces_associations sampleDb 10 2 clearTagsPayload sampleR2
     (by rfl) (by decide)⟩

end RecipeApp
